import Mathlib

/-!
# BoundaryGuard: boundary scanner, validation-rule generator, fuzz-harness generator

A shallow embedding of `scanner.go`, `rulegen.go` and `fuzzgen.go`.

Conventions of the embedding.

* A Go `string` is modelled by its sequence of Unicode code points, `Str = List Char`
  (this is what `range` over a string and the `regexp` package see for valid UTF-8 text).
* `int`, `int64` values are mathematical integers; where the source performs arithmetic
  on them the result is wrapped to 64 bits (`wrap64`, and `wrapU64` for `uint64`).
* Output written to an `io.Writer` is modelled by the text that the call appends.
* The Go standard library is not part of the repository.  What the code needs from the
  Unicode tables (`unicode.IsLetter`, `unicode.IsDigit`, `unicode.ToUpper`,
  `strconv.IsPrint`) and from the `%g` rendering of a `float64` is collected in the
  structure `GoLib`: the ASCII behaviour of the tables, the fact that upper-casing keeps
  letters and digits among letters and digits, and the alphabet of `%g`.  `fmt.Sprintf`,
  `strconv.Quote`, `strings.Split`, `strings.Join`, `strings.Count` and the backtracking
  semantics of `regexp` are modelled by executable definitions.
-/

namespace BoundaryGuard

/-- A Go string, as its sequence of code points. -/
abbrev Str := List Char

/-! ## The part of the Go standard library used by the code -/

/-- Decimal digits of a natural number (`%d` of a non-negative value). -/
def fmtNat (n : Nat) : Str := Nat.toDigits 10 n

/-- The verb `%d` applied to an `int` / `int64`. -/
def fmtInt : Int → Str
  | Int.ofNat n => fmtNat n
  | Int.negSucc n => '-' :: fmtNat (n + 1)

/-- Two's-complement wrap of an integer to the signed 64-bit range (`int`, `int64`). -/
def wrap64 (x : Int) : Int := (x + 2 ^ 63) % 2 ^ 64 - 2 ^ 63

/-- Wrap of an integer to the unsigned 64-bit range (the conversion `uint64(x)` and
`uint64` arithmetic). -/
def wrapU64 (x : Int) : Int := x % 2 ^ 64

/-- The tables and conversions of the Go standard library that the code consults:
`unicode.IsLetter`, `unicode.IsDigit`, `unicode.ToUpper`, `strconv.IsPrint` and the `%g`
rendering of a `float64`.  They are a parameter of the embedding; the values of the Unicode
tables on ASCII are fixed by the four equations; the upper case of a letter or digit is a
letter or digit; the `%g` rendering of these (finite) values is made of decimal digits and
the characters `.`, `e`, `+`, `-`. -/
structure GoLib where
  isLetter : Char → Bool
  isDigit : Char → Bool
  toUpper : Char → Char
  isPrint : Char → Bool
  /-- The text that the verb `%g` prints for the `float64` value `float64(x) + float64(d)`,
  `x` an `int64` and `d` one of `-1`, `0`, `1`. -/
  fmtFloat : Int → Int → Str
  isLetter_ascii : ∀ c : Char, c.toNat < 128 → isLetter c = c.isAlpha
  isDigit_ascii : ∀ c : Char, c.toNat < 128 → isDigit c = c.isDigit
  toUpper_ascii : ∀ c : Char, c.toNat < 128 → toUpper c = c.toUpper
  isPrint_ascii : ∀ c : Char, c.toNat < 128 →
    isPrint c = (decide (32 ≤ c.toNat) && decide (c.toNat < 127))
  toUpper_alnum : ∀ c : Char, (isLetter c || isDigit c) = true →
    (isLetter (toUpper c) || isDigit (toUpper c)) = true
  fmtFloat_chars : ∀ (x d : Int) (c : Char), c ∈ fmtFloat x d →
    c.isDigit = true ∨ c = '.' ∨ c = 'e' ∨ c = '+' ∨ c = '-'

/-- An instance of `GoLib`, used to evaluate the definitions on concrete ASCII inputs: no
code point above 127 is a letter, a digit or printable, `toUpper` only changes `a`..`z`, and
`fmtFloat` prints the integer `x + d` in decimal. -/
def GoLib.ascii : GoLib where
  isLetter c := decide (c.toNat < 128) && c.isAlpha
  isDigit c := decide (c.toNat < 128) && c.isDigit
  toUpper c := if c.toNat < 128 then c.toUpper else c
  isPrint c := decide (32 ≤ c.toNat) && decide (c.toNat < 127)
  fmtFloat x d := fmtInt (x + d)
  isLetter_ascii c h := by simp [h]
  isDigit_ascii c h := by simp [h]
  toUpper_ascii c h := by simp [h]
  isPrint_ascii _ _ := rfl
  toUpper_alnum c h := by
    have key : ∀ n : Nat, n < 128 →
        ((decide ((Char.ofNat n).toNat < 128) && (Char.ofNat n).isAlpha)
          || (decide ((Char.ofNat n).toNat < 128) && (Char.ofNat n).isDigit)) = true →
        ((decide ((if (Char.ofNat n).toNat < 128 then (Char.ofNat n).toUpper
              else Char.ofNat n).toNat < 128)
            && (if (Char.ofNat n).toNat < 128 then (Char.ofNat n).toUpper
              else Char.ofNat n).isAlpha)
          || (decide ((if (Char.ofNat n).toNat < 128 then (Char.ofNat n).toUpper
              else Char.ofNat n).toNat < 128)
            && (if (Char.ofNat n).toNat < 128 then (Char.ofNat n).toUpper
              else Char.ofNat n).isDigit)) = true := by
      decide
    by_cases hc : c.toNat < 128
    · have := key c.toNat hc
      rw [Char.ofNat_toNat] at this
      exact this h
    · simp [hc] at h
  fmtFloat_chars x d c hc := by
    have hdigit : ∀ n : Nat, (Nat.digitChar (n % 10)).isDigit = true := by
      intro n
      have hlt : n % 10 < 10 := Nat.mod_lt _ (by decide)
      generalize n % 10 = k at hlt
      interval_cases k <;> rfl
    have key : ∀ (fuel n : Nat) (ds : List Char), (∀ a ∈ ds, a.isDigit = true) →
        ∀ a ∈ Nat.toDigitsCore 10 fuel n ds, a.isDigit = true := by
      intro fuel
      induction fuel with
      | zero => intro n ds h a ha; exact h a ha
      | succ f ih =>
        intro n ds h a ha
        simp only [Nat.toDigitsCore] at ha
        have hds : ∀ b ∈ Nat.digitChar (n % 10) :: ds, b.isDigit = true := by
          intro b hb
          rcases List.mem_cons.1 hb with rfl | hb
          · exact hdigit n
          · exact h b hb
        split at ha
        · exact hds a ha
        · exact ih _ _ hds a ha
    have hnat : ∀ n : Nat, ∀ a ∈ fmtNat n, a.isDigit = true := fun n a ha =>
      key _ _ [] (fun _ hb => absurd hb (List.not_mem_nil _)) a ha
    have hc' : c ∈ fmtInt (x + d) := hc
    cases hxd : x + d with
    | ofNat n =>
      rw [hxd] at hc'
      exact Or.inl (hnat n c hc')
    | negSucc n =>
      rw [hxd] at hc'
      rcases List.mem_cons.1 hc' with rfl | hc'
      · exact Or.inr (Or.inr (Or.inr (Or.inr rfl)))
      · exact Or.inl (hnat _ c hc')

/-- One lower-case hexadecimal digit (`lowerhex[n]`). -/
def lowerhex (n : Nat) : Char := "0123456789abcdef".toList.getD (n % 16) '0'

/-- The `k` low hexadecimal digits of `n`, most significant first. -/
def hexDigits : Nat → Nat → Str
  | 0, _ => []
  | k + 1, n => hexDigits k (n / 16) ++ [lowerhex n]

/-- What `strconv.appendEscapedRune` appends for one code point under `strconv.Quote`. -/
def escapeRune (G : GoLib) (c : Char) : Str :=
  if c = '\"' ∨ c = '\\' then ['\\', c]
  else if G.isPrint c then [c]
  else if c.toNat = 7 then "\\a".toList
  else if c.toNat = 8 then "\\b".toList
  else if c.toNat = 12 then "\\f".toList
  else if c.toNat = 10 then "\\n".toList
  else if c.toNat = 13 then "\\r".toList
  else if c.toNat = 9 then "\\t".toList
  else if c.toNat = 11 then "\\v".toList
  else if c.toNat < 32 ∨ c.toNat = 127 then "\\x".toList ++ hexDigits 2 c.toNat
  else if c.toNat < 65536 then "\\u".toList ++ hexDigits 4 c.toNat
  else "\\U".toList ++ hexDigits 8 c.toNat

/-- The verb `%q` applied to a string (`strconv.Quote`). -/
def quote (G : GoLib) (s : Str) : Str :=
  '\"' :: (s.flatMap (escapeRune G) ++ ['\"'])

/-- An operand of `fmt.Sprintf`. -/
inductive Arg where
  | str : Str → Arg
  | int : Int → Arg
  | flt : Int → Int → Arg

/-- The function `fmt.Sprintf` for the verbs the source uses: `%s` and `%q` of a string,
`%d` of an integer, `%g` of a `float64`.  Every other character of the format is copied. -/
def sprintf (G : GoLib) : Str → List Arg → Str
  | '%' :: 's' :: fmt, Arg.str v :: args => v ++ sprintf G fmt args
  | '%' :: 'q' :: fmt, Arg.str v :: args => quote G v ++ sprintf G fmt args
  | '%' :: 'd' :: fmt, Arg.int v :: args => fmtInt v ++ sprintf G fmt args
  | '%' :: 'g' :: fmt, Arg.flt x d :: args => G.fmtFloat x d ++ sprintf G fmt args
  | c :: fmt, args => c :: sprintf G fmt args
  | [], _ => []

/-- The function `strings.Join`. -/
def stringsJoin : List Str → Str → Str
  | [], _ => []
  | [a], _ => a
  | a :: b :: rest, sep => a ++ sep ++ stringsJoin (b :: rest) sep

/-- The call `strings.Split(content, "\n")`. -/
def splitNewline : Str → List Str
  | [] => [[]]
  | c :: cs =>
    if c = '\n' then [] :: splitNewline cs
    else match splitNewline cs with
      | l :: ls => (c :: l) :: ls
      | [] => [[c]]

/-- The loop of `strings.Count` for a non-empty `substr`: the number of non-overlapping
instances of `substr` met from left to right in `s`, after passing over the `skip`
characters that still belong to the instance met last. -/
def countFrom (substr : Str) : Nat → Str → Nat
  | _, [] => 0
  | 0, c :: cs =>
    if substr <+: c :: cs then countFrom substr (substr.length - 1) cs + 1
    else countFrom substr 0 cs
  | skip + 1, _ :: cs => countFrom substr skip cs

/-- The function `strings.Count`: the number of non-overlapping instances of `substr` in
`s` (one more than the number of code points of `s` when `substr` is empty). -/
def stringsCount (s substr : Str) : Nat :=
  if substr = [] then s.length + 1 else countFrom substr 0 s

/-! ## Regular expressions (package `regexp`, leftmost-first semantics) -/

/-- The syntax of the patterns of the rule table. -/
inductive Regex where
  | lit : Str → Regex
  | cls : (Char → Bool) → Regex
  | cat : Regex → Regex → Regex
  | alt : Regex → Regex → Regex
  | opt : Regex → Regex
  | plusCls : (Char → Bool) → Regex
  | grp : Nat → Regex → Regex

/-- Capture groups set during a match: group number and captured text. -/
abbrev Caps := List (Nat × Str)

/-- The ways a greedy `[class]+` can match at the start of `s`, longest first:
consumed text and remaining text. -/
def many1 (p : Char → Bool) : Str → List (Str × Str)
  | [] => []
  | c :: cs =>
    if p c then ((many1 p cs).map fun wr => (c :: wr.1, wr.2)) ++ [([c], cs)] else []

/-- All ways the pattern can match at the start of `s`, in the order a backtracking
matcher tries them: consumed text, captures, remaining text. -/
def Regex.run : Regex → Str → List (Str × Caps × Str)
  | .lit l, s => if l <+: s then [(l, [], s.drop l.length)] else []
  | .cls p, s =>
    match s with
    | c :: cs => if p c then [([c], [], cs)] else []
    | [] => []
  | .cat a b, s =>
    (a.run s).flatMap fun x =>
      (b.run x.2.2).map fun y => (x.1 ++ y.1, x.2.1 ++ y.2.1, y.2.2)
  | .alt a b, s => a.run s ++ b.run s
  | .opt a, s => a.run s ++ [([], [], s)]
  | .plusCls p, s => (many1 p s).map fun wr => (wr.1, [], wr.2)
  | .grp n a, s => (a.run s).map fun x => (x.1, (n, x.1) :: x.2.1, x.2.2)

/-- Number of capture groups of a pattern (`NumSubexp`). -/
def Regex.numSubexp : Regex → Nat
  | .lit _ => 0
  | .cls _ => 0
  | .cat a b => a.numSubexp + b.numSubexp
  | .alt a b => a.numSubexp + b.numSubexp
  | .opt a => a.numSubexp
  | .plusCls _ => 0
  | .grp _ a => a.numSubexp + 1

/-- The leftmost match: the first start position at which the pattern matches, with the
match a backtracking matcher finds first there. -/
def Regex.find (re : Regex) : Str → Option (Str × Caps)
  | [] => (re.run []).head?.map fun x => (x.1, x.2.1)
  | c :: cs =>
    match (re.run (c :: cs)).head? with
    | some x => some (x.1, x.2.1)
    | none => re.find cs

/-- The method `FindStringSubmatch`: `none` for Go's `nil`; otherwise the matched text
followed by the text of each group (empty when the group took no part). -/
def Regex.FindStringSubmatch (re : Regex) (s : Str) : Option (List Str) :=
  (re.find s).map fun m =>
    m.1 :: (List.range re.numSubexp).map fun i => (m.2.lookup (i + 1)).getD []

/-- The language of a pattern: the texts it can match. -/
def Regex.Matches : Regex → Str → Prop
  | .lit l, w => w = l
  | .cls p, w => ∃ c, p c = true ∧ w = [c]
  | .cat a b, w => ∃ u v, w = u ++ v ∧ a.Matches u ∧ b.Matches v
  | .alt a b, w => a.Matches w ∨ b.Matches w
  | .opt a, w => a.Matches w ∨ w = []
  | .plusCls p, w => w ≠ [] ∧ ∀ c ∈ w, p c = true
  | .grp _ a, w => a.Matches w

/-! ## scanner.go -/

structure Boundary where
  File : Str
  Line : Int
  Type_ : Str
  Source : Str
  Variable : Str
  Validation : List Str
  FuzzInputs : List Str
deriving DecidableEq

structure rule where
  exts : List Str
  typ : Str
  source : Str
  re : Regex
  idx : Nat

/-- The class `[^"]`. -/
def notDQuote (c : Char) : Bool := c != '\"'

/-- The class `['"]`. -/
def anyQuote (c : Char) : Bool := c == '\'' || c == '\"'

/-- The class `[^'"]`. -/
def notAnyQuote (c : Char) : Bool := !(c == '\'' || c == '\"')

/-- The class `\w`, which is `[0-9A-Za-z_]`. -/
def wordChar (c : Char) : Bool := c.isDigit || c.isUpper || c.isLower || c == '_'

/-- Pattern `(?:URL\.Query\(\)\.Get|FormValue)\("([^"]+)"\)`. -/
def reGoQuery : Regex :=
  .cat (.alt (.lit "URL.Query().Get".toList) (.lit "FormValue".toList))
    (.cat (.lit "(\"".toList) (.cat (.grp 1 (.plusCls notDQuote)) (.lit "\")".toList)))

/-- Pattern `os\.Getenv\("([^"]+)"\)`. -/
def reGoEnv : Regex :=
  .cat (.lit "os.Getenv(\"".toList) (.cat (.grp 1 (.plusCls notDQuote)) (.lit "\")".toList))

/-- Pattern `Header\.Get\("([^"]+)"\)`. -/
def reGoHeader : Regex :=
  .cat (.lit "Header.Get(\"".toList) (.cat (.grp 1 (.plusCls notDQuote)) (.lit "\")".toList))

/-- Pattern `request\.(?:args|form|json)(?:\.get\(|\.?\[)['"]([\w]+)`. -/
def rePyQuery : Regex :=
  .cat (.lit "request.".toList)
    (.cat (.alt (.lit "args".toList) (.alt (.lit "form".toList) (.lit "json".toList)))
      (.cat (.alt (.lit ".get(".toList) (.cat (.opt (.lit ".".toList)) (.lit "[".toList)))
        (.cat (.cls anyQuote) (.grp 1 (.plusCls wordChar)))))

/-- Pattern `os\.(?:environ\.get|getenv)\(['"]([^'"]+)['"]\)`. -/
def rePyEnv : Regex :=
  .cat (.lit "os.".toList)
    (.cat (.alt (.lit "environ.get".toList) (.lit "getenv".toList))
      (.cat (.lit "(".toList)
        (.cat (.cls anyQuote)
          (.cat (.grp 1 (.plusCls notAnyQuote)) (.cat (.cls anyQuote) (.lit ")".toList))))))

/-- Pattern `req\.(query|params|body)\.(\w+)`. -/
def reJsQuery : Regex :=
  .cat (.lit "req.".toList)
    (.cat (.grp 1 (.alt (.lit "query".toList) (.alt (.lit "params".toList) (.lit "body".toList))))
      (.cat (.lit ".".toList) (.grp 2 (.plusCls wordChar))))

/-- Pattern `process\.env\.(\w+)`. -/
def reJsEnv : Regex :=
  .cat (.lit "process.env.".toList) (.grp 1 (.plusCls wordChar))

/-- The shape shared by the `.go` environment and header patterns, `L"([^"]+)"\)`: the
literal `L` and an opening quote, a non-empty quote-free argument, a closing quote and
parenthesis. -/
def quotedCall (L : Str) : Regex :=
  .cat (.lit (L ++ ['\"'])) (.cat (.grp 1 (.plusCls notDQuote)) (.lit "\")".toList))

def rules : List rule := [
  ⟨[".go".toList], "http_query".toList, "URL Query".toList, reGoQuery, 1⟩,
  ⟨[".go".toList], "env_var".toList, "Env Var".toList, reGoEnv, 1⟩,
  ⟨[".go".toList], "http_header".toList, "HTTP Header".toList, reGoHeader, 1⟩,
  ⟨[".py".toList], "http_query".toList, "Flask/Django".toList, rePyQuery, 1⟩,
  ⟨[".py".toList], "env_var".toList, "Env Var".toList, rePyEnv, 1⟩,
  ⟨[".js".toList, ".ts".toList], "http_query".toList, "Express".toList, reJsQuery, 2⟩,
  ⟨[".js".toList, ".ts".toList], "env_var".toList, "Env Var".toList, reJsEnv, 1⟩]

def hasExt : List Str → Str → Bool
  | [], _ => false
  | e :: exts, ext => if e = ext then true else hasExt exts ext

def genValidation (typ : Str) : List Str :=
  let base := ["check non-empty".toList, "max length 1024".toList]
  if typ = "http_query".toList then
    base ++ ["sanitize HTML entities".toList, "validate against allowlist".toList]
  else if typ = "http_header".toList then
    base ++ ["reject CRLF characters".toList, "validate header format".toList]
  else if typ = "env_var".toList then
    base ++ ["provide default value".toList, "validate format on startup".toList]
  else base

def genFuzz (typ : Str) : List Str :=
  let base := ["\"\"".toList, "\"<script>alert(1)</script>\"".toList,
    "\"' OR 1=1--\"".toList, "\"A\"x10000".toList]
  if typ = "http_query".toList then
    base ++ ["\"%0d%0aInjected\"".toList, "\"\x7b\x7b7*7\x7d\x7d\"".toList,
      "\"../../../etc/passwd\"".toList]
  else if typ = "http_header".toList then
    base ++ ["\"\\r\\nX-Injected: true\"".toList, "\"bytes(0x00-0xff)\"".toList]
  else if typ = "env_var".toList then
    base ++ ["\"$(whoami)\"".toList, "\"; rm -rf /\"".toList, "\"\\x00NULL\"".toList]
  else base

/-- The body of the inner loop of `ScanContent`: the slice `out` after the rule `r` has been
tried on line number `i` (counted from 0). -/
def scanStep (path ext : Str) (i : Nat) (line : Str) (out : List Boundary) (r : rule) :
    List Boundary :=
  if !hasExt r.exts ext then out
  else match r.re.FindStringSubmatch line with
    | none => out
    | some m =>
      if r.idx ≥ m.length then out
      else out ++ [{
        File := path, Line := (i : Int) + 1, Type_ := r.typ,
        Source := r.source, Variable := m.getD r.idx [],
        Validation := genValidation r.typ,
        FuzzInputs := genFuzz r.typ }]

def ScanContent (content path ext : Str) : List Boundary :=
  (splitNewline content).enum.foldl
    (fun out il => rules.foldl (scanStep path ext il.1 il.2) out) []

/-- The finding that one rule contributes on one line, if any (`scanStep` appends it). -/
def scanRule (path ext : Str) (i : Nat) (line : Str) (r : rule) : Option Boundary :=
  if !hasExt r.exts ext then none
  else match r.re.FindStringSubmatch line with
    | none => none
    | some m =>
      if r.idx ≥ m.length then none
      else some {
        File := path, Line := (i : Int) + 1, Type_ := r.typ,
        Source := r.source, Variable := m.getD r.idx [],
        Validation := genValidation r.typ,
        FuzzInputs := genFuzz r.typ }

/-- The labels (type, source) of the rules of the table that apply to an extension, in
table order. -/
def ruleLabels (ext : Str) : List (Str × Str) :=
  (rules.filter fun r => hasExt r.exts ext).map fun r => (r.typ, r.source)

/-! ## rulegen.go -/

namespace RuleGen

/-- A discovered input boundary with its constraints. -/
structure BoundaryEntry where
  ParamName : Str
  DataType : Str
  MaxLength : Int
  MinLength : Int
  MinValue : Int
  MaxValue : Int
  EnumValues : List Str
  RegexPattern : Str

/-- A generated Go validation code snippet. -/
structure ValidationRule where
  ParamName : Str
  RuleType : Str
  GoCode : Str
deriving DecidableEq

/-- The rule appended when `DataType` is `string` and `MaxLength > 0`. -/
def maxLengthRule (G : GoLib) (e : BoundaryEntry) : ValidationRule := {
  ParamName := e.ParamName,
  RuleType := "length".toList,
  GoCode := sprintf G
    "if len(%s) > %d \x7b\n\treturn fmt.Errorf(\"%s exceeds max length %d\")\n\x7d".toList
    [.str e.ParamName, .int e.MaxLength, .str e.ParamName, .int e.MaxLength] }

/-- The rule appended when `DataType` is `string` and `MinLength > 0`. -/
def minLengthRule (G : GoLib) (e : BoundaryEntry) : ValidationRule := {
  ParamName := e.ParamName,
  RuleType := "length".toList,
  GoCode := sprintf G
    "if len(%s) < %d \x7b\n\treturn fmt.Errorf(\"%s must be at least %d characters\")\n\x7d".toList
    [.str e.ParamName, .int e.MinLength, .str e.ParamName, .int e.MinLength] }

/-- The rule appended when `DataType` is `int`. -/
def rangeRule (G : GoLib) (e : BoundaryEntry) : ValidationRule := {
  ParamName := e.ParamName,
  RuleType := "range".toList,
  GoCode := sprintf G
    "if %s < %d || %s > %d \x7b\n\treturn fmt.Errorf(\"%s must be between %d and %d\")\n\x7d".toList
    [.str e.ParamName, .int e.MinValue, .str e.ParamName, .int e.MaxValue,
     .str e.ParamName, .int e.MinValue, .int e.MaxValue] }

/-- The rule appended when `EnumValues` is not empty. -/
def enumRule (G : GoLib) (e : BoundaryEntry) : ValidationRule :=
  let quoted := e.EnumValues.map fun v => sprintf G "%q".toList [.str v]
  let cases := stringsJoin quoted ", ".toList
  let display := stringsJoin e.EnumValues ", ".toList
  { ParamName := e.ParamName,
    RuleType := "enum".toList,
    GoCode := sprintf G
      "switch %s \x7b\ncase %s:\n\t// valid\ndefault:\n\treturn fmt.Errorf(\"%s must be one of [%s]\")\n\x7d".toList
      [.str e.ParamName, .str cases, .str e.ParamName, .str display] }

/-- The rule appended when `RegexPattern` is not empty. -/
def regexRule (G : GoLib) (e : BoundaryEntry) : ValidationRule := {
  ParamName := e.ParamName,
  RuleType := "regex".toList,
  GoCode := sprintf G
    "if matched, _ := regexp.MatchString(%q, %s); !matched \x7b\n\treturn fmt.Errorf(\"%s does not match required pattern\")\n\x7d".toList
    [.str e.RegexPattern, .str e.ParamName, .str e.ParamName] }

def rulesForEntry (G : GoLib) (e : BoundaryEntry) : List ValidationRule :=
  let out : List ValidationRule := []
  let out :=
    if e.DataType = "string".toList then
      let out := if e.MaxLength > 0 then out ++ [maxLengthRule G e] else out
      if e.MinLength > 0 then out ++ [minLengthRule G e] else out
    else if e.DataType = "int".toList then out ++ [rangeRule G e]
    else out
  -- Enum rules apply regardless of DataType
  let out := if e.EnumValues.length > 0 then out ++ [enumRule G e] else out
  -- Regex rules
  let out := if e.RegexPattern ≠ [] then out ++ [regexRule G e] else out
  out

/-- Go validation code snippets for the discovered boundary entries. -/
def GenerateRules (G : GoLib) (entries : List BoundaryEntry) : List ValidationRule :=
  entries.foldl (fun out e => out ++ rulesForEntry G e) []

end RuleGen

/-! ## fuzzgen.go -/

namespace FuzzGen

/-- A discovered input boundary for fuzz test generation. -/
structure BoundaryEntry where
  Name : Str
  Type_ : Str
  Source : Str
  Min : Int
  Max : Int
  MaxLen : Int
  FuzzInputs : List Str

/-- One iteration of the loop of `fuzzFuncName` on the builder text and the flag `upper`. -/
def fuzzStep (G : GoLib) (st : Str × Bool) (r : Char) : Str × Bool :=
  if !G.isLetter r && !G.isDigit r then (st.1, true)
  else if st.2 then (st.1 ++ [G.toUpper r], false)
  else (st.1 ++ [r], false)

/-- Converts a boundary name like `user_name` into `FuzzUserName`. -/
def fuzzFuncName (G : GoLib) (name : Str) : Str :=
  (name.foldl (fuzzStep G) ("Fuzz".toList, true)).1

/-- A separator of `fuzzFuncName`: a code point that is neither a letter nor a digit. -/
def isSeparator (G : GoLib) (r : Char) : Bool := !G.isLetter r && !G.isDigit r

/-- The maximal runs of letters and digits of a name, in order: the non-empty pieces left
when the name is cut at every separator. -/
def alnumRuns (G : GoLib) (name : Str) : List Str :=
  (name.splitOnP (isSeparator G)).filter fun run => !run.isEmpty

/-- A run with its first character upper-cased and the remaining characters unchanged. -/
def capitalize (G : GoLib) : Str → Str
  | [] => []
  | c :: cs => G.toUpper c :: cs

/-- The name transformation in the words of the specification: `Fuzz`, then every maximal
letter/digit run with its first character upper-cased, separators dropped. -/
def specFuncName (G : GoLib) (name : Str) : Str :=
  "Fuzz".toList ++ ((alnumRuns G name).map (capitalize G)).flatten

def writeStringFuzz (G : GoLib) (name : Str) (e : BoundaryEntry) : Str :=
  sprintf G "func %s(f *testing.F) \x7b\n".toList [.str name]
  ++ sprintf G "\tf.Add(\"\")\n".toList []
  ++ sprintf G "\tf.Add(\"a\")\n".toList []
  ++ (if e.MaxLen > 1 then
        sprintf G "\tf.Add(string(make([]byte, %d)))\n".toList [.int (wrap64 (e.MaxLen - 1))]
      else [])
  ++ (if e.MaxLen > 0 then
        sprintf G "\tf.Add(string(make([]byte, %d)))\n".toList [.int e.MaxLen]
        ++ sprintf G "\tf.Add(string(make([]byte, %d)))\n".toList [.int (wrap64 (e.MaxLen + 1))]
      else [])
  ++ (e.FuzzInputs.flatMap fun fi => sprintf G "\tf.Add(%q)\n".toList [.str fi])
  ++ sprintf G "\tf.Fuzz(func(t *testing.T, v string) \x7b\n".toList []
  ++ sprintf G "\t\t_ = v\n".toList []
  ++ sprintf G "\t\x7d)\n".toList []
  ++ sprintf G "\x7d\n".toList []

def writeIntFuzz (G : GoLib) (name : Str) (e : BoundaryEntry) : Str :=
  sprintf G "func %s(f *testing.F) \x7b\n".toList [.str name]
  ++ sprintf G "\tf.Add(int64(%d))\n".toList [.int e.Min]
  ++ sprintf G "\tf.Add(int64(%d))\n".toList [.int e.Max]
  ++ sprintf G "\tf.Add(int64(%d))\n".toList [.int (wrap64 (e.Min - 1))]
  ++ sprintf G "\tf.Add(int64(%d))\n".toList [.int (wrap64 (e.Max + 1))]
  ++ sprintf G "\tf.Add(int64(0))\n".toList []
  ++ sprintf G "\tf.Fuzz(func(t *testing.T, v int64) \x7b\n".toList []
  ++ sprintf G "\t\t_ = v\n".toList []
  ++ sprintf G "\t\x7d)\n".toList []
  ++ sprintf G "\x7d\n".toList []

def writeUintFuzz (G : GoLib) (name : Str) (e : BoundaryEntry) : Str :=
  sprintf G "func %s(f *testing.F) \x7b\n".toList [.str name]
  ++ sprintf G "\tf.Add(uint64(0))\n".toList []
  ++ (if e.Min > 0 then
        sprintf G "\tf.Add(uint64(%d))\n".toList [.int (wrapU64 (wrap64 (e.Min - 1)))]
      else [])
  ++ sprintf G "\tf.Add(uint64(%d))\n".toList [.int (wrapU64 e.Min)]
  ++ sprintf G "\tf.Add(uint64(%d))\n".toList [.int (wrapU64 e.Max)]
  ++ sprintf G "\tf.Add(uint64(%d))\n".toList [.int (wrapU64 (wrapU64 e.Max + 1))]
  ++ sprintf G "\tf.Fuzz(func(t *testing.T, v uint64) \x7b\n".toList []
  ++ sprintf G "\t\t_ = v\n".toList []
  ++ sprintf G "\t\x7d)\n".toList []
  ++ sprintf G "\x7d\n".toList []

def writeFloatFuzz (G : GoLib) (name : Str) (e : BoundaryEntry) : Str :=
  sprintf G "func %s(f *testing.F) \x7b\n".toList [.str name]
  ++ sprintf G "\tf.Add(float64(%g))\n".toList [.flt e.Min 0]
  ++ sprintf G "\tf.Add(float64(%g))\n".toList [.flt e.Max 0]
  ++ sprintf G "\tf.Add(float64(%g))\n".toList [.flt e.Min (-1)]
  ++ sprintf G "\tf.Add(float64(%g))\n".toList [.flt e.Max 1]
  ++ sprintf G "\tf.Add(float64(0))\n".toList []
  ++ sprintf G "\tf.Fuzz(func(t *testing.T, v float64) \x7b\n".toList []
  ++ sprintf G "\t\t_ = v\n".toList []
  ++ sprintf G "\t\x7d)\n".toList []
  ++ sprintf G "\x7d\n".toList []

def writeFuzzFunc (G : GoLib) (e : BoundaryEntry) : Str :=
  let name := fuzzFuncName G e.Name
  if e.Type_ = "int".toList then writeIntFuzz G name e
  else if e.Type_ = "uint".toList then writeUintFuzz G name e
  else if e.Type_ = "float64".toList then writeFloatFuzz G name e
  else writeStringFuzz G name e

/-- The parameter type of the fuzz target in the entry point written for `e`. -/
def seedType (e : BoundaryEntry) : Str :=
  if e.Type_ = "int".toList then "int64".toList
  else if e.Type_ = "uint".toList then "uint64".toList
  else if e.Type_ = "float64".toList then "float64".toList
  else "string".toList

/-- The arguments of the `f.Add` calls in the entry point written for `e`, in order. -/
def seedExprs (G : GoLib) (e : BoundaryEntry) : List Str :=
  if e.Type_ = "int".toList then
    ["int64(".toList ++ fmtInt e.Min ++ ")".toList,
     "int64(".toList ++ fmtInt e.Max ++ ")".toList,
     "int64(".toList ++ fmtInt (wrap64 (e.Min - 1)) ++ ")".toList,
     "int64(".toList ++ fmtInt (wrap64 (e.Max + 1)) ++ ")".toList,
     "int64(0)".toList]
  else if e.Type_ = "uint".toList then
    ["uint64(0)".toList]
      ++ (if e.Min > 0 then
            ["uint64(".toList ++ fmtInt (wrapU64 (wrap64 (e.Min - 1))) ++ ")".toList]
          else [])
      ++ ["uint64(".toList ++ fmtInt (wrapU64 e.Min) ++ ")".toList,
          "uint64(".toList ++ fmtInt (wrapU64 e.Max) ++ ")".toList,
          "uint64(".toList ++ fmtInt (wrapU64 (wrapU64 e.Max + 1)) ++ ")".toList]
  else if e.Type_ = "float64".toList then
    ["float64(".toList ++ G.fmtFloat e.Min 0 ++ ")".toList,
     "float64(".toList ++ G.fmtFloat e.Max 0 ++ ")".toList,
     "float64(".toList ++ G.fmtFloat e.Min (-1) ++ ")".toList,
     "float64(".toList ++ G.fmtFloat e.Max 1 ++ ")".toList,
     "float64(0)".toList]
  else
    ["\"\"".toList, "\"a\"".toList]
      ++ (if e.MaxLen > 1 then
            ["string(make([]byte, ".toList ++ fmtInt (wrap64 (e.MaxLen - 1)) ++ "))".toList]
          else [])
      ++ (if e.MaxLen > 0 then
            ["string(make([]byte, ".toList ++ fmtInt e.MaxLen ++ "))".toList,
             "string(make([]byte, ".toList ++ fmtInt (wrap64 (e.MaxLen + 1)) ++ "))".toList]
          else [])
      ++ e.FuzzInputs.map (quote G)

/-- The call `fmt.Fprintln(w, s)`. -/
def fprintln (s : Str) : Str := s ++ ['\n']

/-- The generated fuzz test source code written to the writer. -/
def WriteFuzzTests (G : GoLib) (entries : List BoundaryEntry) : Str :=
  entries.foldl (fun w e => w ++ fprintln [] ++ writeFuzzFunc G e)
    (fprintln "package boundaryguard_test".toList
      ++ fprintln []
      ++ fprintln "import (".toList
      ++ fprintln "\t\"testing\"".toList
      ++ fprintln ")".toList)

/-- A complete Go test file with a native fuzz function for each boundary entry. -/
def GenerateFuzzTests (G : GoLib) (entries : List BoundaryEntry) : Str :=
  WriteFuzzTests G entries

end FuzzGen

/-! # Theorems

## Lemmas on the library model -/

theorem splitNewline_ne_nil (s : Str) : splitNewline s ≠ [] := by
  induction s with
  | nil => simp [splitNewline]
  | cons c cs ih =>
    unfold splitNewline
    split
    · simp
    · split <;> simp

theorem splitNewline_of_not_mem (s : Str) (h : '\n' ∉ s) : splitNewline s = [s] := by
  induction s with
  | nil => rfl
  | cons c cs ih =>
    have hc : c ≠ '\n' := fun e => h (by simp [e])
    have hcs : '\n' ∉ cs := fun e => h (by simp [e])
    simp [splitNewline, hc, ih hcs]

theorem many1_sound (p : Char → Bool) (s : Str) (x : Str × Str) (hx : x ∈ many1 p s) :
    s = x.1 ++ x.2 ∧ x.1 ≠ [] ∧ ∀ c ∈ x.1, p c = true := by
  induction s generalizing x with
  | nil => simp [many1] at hx
  | cons c cs ih =>
    unfold many1 at hx
    split at hx
    next hp =>
      rcases List.mem_append.1 hx with h | h
      · obtain ⟨y, hy, rfl⟩ := List.mem_map.1 h
        obtain ⟨h1, _, h3⟩ := ih y hy
        refine ⟨by simp [← h1], by simp, ?_⟩
        intro d hd
        rcases List.mem_cons.1 hd with rfl | hd
        · exact hp
        · exact h3 d hd
      · simp at h
        subst h
        simp [hp]
    next => simp at hx

theorem many1_head (p : Char → Bool) (v : Str) (c : Char) (rest : Str)
    (hv : v ≠ []) (hp : ∀ d ∈ v, p d = true) (hc : p c = false) :
    ∃ tl, many1 p (v ++ c :: rest) = (v, c :: rest) :: tl := by
  induction v with
  | nil => exact absurd rfl hv
  | cons a v ih =>
    have ha : p a = true := hp a (by simp)
    cases v with
    | nil => exact ⟨[], by simp [many1, ha, hc]⟩
    | cons b v =>
      obtain ⟨tl, htl⟩ := ih (by simp) (fun d hd => hp d (by simp [hd]))
      refine ⟨tl.map (fun wr => (a :: wr.1, wr.2)) ++ [([a], b :: v ++ c :: rest)], ?_⟩
      rw [List.cons_append, many1, if_pos ha, htl]
      rfl

theorem many1_head_end (p : Char → Bool) (v : Str)
    (hv : v ≠ []) (hp : ∀ d ∈ v, p d = true) :
    ∃ tl, many1 p v = (v, []) :: tl := by
  induction v with
  | nil => exact absurd rfl hv
  | cons a v ih =>
    have ha : p a = true := hp a (by simp)
    cases v with
    | nil => exact ⟨[], by simp [many1, ha]⟩
    | cons b v =>
      obtain ⟨tl, htl⟩ := ih (by simp) (fun d hd => hp d (by simp [hd]))
      refine ⟨tl.map (fun wr => (a :: wr.1, wr.2)) ++ [([a], b :: v)], ?_⟩
      rw [many1, if_pos ha, htl]
      rfl

/-- Soundness of the matcher: every result splits the input into a text of the language
of the pattern and the remaining input. -/
theorem Regex.run_sound (re : Regex) (s : Str) (x : Str × Caps × Str) (hx : x ∈ re.run s) :
    s = x.1 ++ x.2.2 ∧ re.Matches x.1 := by
  induction re generalizing s x with
  | lit l =>
    unfold Regex.run at hx
    split at hx
    next hl =>
      simp at hx
      subst hx
      obtain ⟨t, rfl⟩ := hl
      simp [Regex.Matches]
    next => simp at hx
  | cls p =>
    unfold Regex.run at hx
    split at hx
    next c cs =>
      split at hx
      next hp =>
        simp at hx
        subst hx
        exact ⟨rfl, c, hp, rfl⟩
      next => simp at hx
    next => simp at hx
  | cat a b iha ihb =>
    simp only [Regex.run, List.mem_flatMap, List.mem_map] at hx
    obtain ⟨y, hy, z, hz, rfl⟩ := hx
    obtain ⟨h1, h2⟩ := iha s y hy
    obtain ⟨h3, h4⟩ := ihb _ z hz
    refine ⟨?_, y.1, z.1, rfl, h2, h4⟩
    simp only [List.append_assoc]
    rw [← h3, ← h1]
  | alt a b iha ihb =>
    simp only [Regex.run, List.mem_append] at hx
    rcases hx with h | h
    · exact ⟨(iha s x h).1, Or.inl (iha s x h).2⟩
    · exact ⟨(ihb s x h).1, Or.inr (ihb s x h).2⟩
  | opt a iha =>
    simp only [Regex.run, List.mem_append, List.mem_singleton] at hx
    rcases hx with h | h
    · exact ⟨(iha s x h).1, Or.inl (iha s x h).2⟩
    · subst h
      exact ⟨rfl, Or.inr rfl⟩
  | plusCls p =>
    simp only [Regex.run, List.mem_map] at hx
    obtain ⟨y, hy, rfl⟩ := hx
    obtain ⟨h1, h2, h3⟩ := many1_sound p s y hy
    exact ⟨h1, h2, h3⟩
  | grp n a iha =>
    simp only [Regex.run, List.mem_map] at hx
    obtain ⟨y, hy, rfl⟩ := hx
    exact iha s y hy

/-- Soundness of the search: a reported match is an infix of the input and belongs to the
language of the pattern. -/
theorem Regex.find_sound (re : Regex) (s : Str) (m : Str × Caps) (hm : re.find s = some m) :
    ∃ pre post, s = pre ++ m.1 ++ post ∧ re.Matches m.1 := by
  induction s with
  | nil =>
    simp only [Regex.find, Option.map_eq_some'] at hm
    obtain ⟨x, hx, rfl⟩ := hm
    obtain ⟨h1, h2⟩ := re.run_sound [] x (List.mem_of_mem_head? hx)
    exact ⟨[], x.2.2, by simpa using h1, h2⟩
  | cons c cs ih =>
    unfold Regex.find at hm
    split at hm
    next x hx =>
      simp at hm
      subst hm
      obtain ⟨h1, h2⟩ := re.run_sound _ x (List.mem_of_mem_head? hx)
      exact ⟨[], x.2.2, by simpa using h1, h2⟩
    next =>
      obtain ⟨pre, post, h1, h2⟩ := ih hm
      exact ⟨c :: pre, post, by simp [h1], h2⟩

theorem Regex.find_eq_none_of_forall (re : Regex) (s : Str)
    (h : ∀ pre w post, s = pre ++ w ++ post → ¬ re.Matches w) : re.find s = none := by
  cases hm : re.find s with
  | none => rfl
  | some m =>
    obtain ⟨pre, post, h1, h2⟩ := re.find_sound s m hm
    exact absurd h2 (h pre m.1 post h1)

theorem Regex.run_lit_append (l s : Str) : (Regex.lit l).run (l ++ s) = [(l, [], s)] := by
  simp [Regex.run]

theorem Regex.find_hit (re : Regex) (s : Str) (x : Str × Caps × Str) (tl : List (Str × Caps × Str))
    (h : re.run s = x :: tl) : re.find s = some (x.1, x.2.1) := by
  cases s <;> simp [Regex.find, h]

theorem Regex.find_skip (re : Regex) (c : Char) (cs : Str) (h : re.run (c :: cs) = []) :
    re.find (c :: cs) = re.find cs := by
  simp [Regex.find, h]

theorem reGoQuery_run_hit (v rest : Str) (hv : v ≠ []) (hq : '\"' ∉ v) :
    ∃ tl, reGoQuery.run ("URL.Query().Get(\"".toList ++ v ++ "\")".toList ++ rest)
      = ("URL.Query().Get(\"".toList ++ v ++ "\")".toList, [(1, v)], rest) :: tl := by
  obtain ⟨tl, htl⟩ := many1_head notDQuote v '\"' (')' :: rest) hv
    (fun d hd => by
      have : d ≠ '\"' := fun e => hq (e ▸ hd)
      simp [notDQuote, this])
    (by decide)
  simp [reGoQuery, Regex.run, htl]

theorem reGoQuery_run_miss (c : Char) (cs : Str) (h1 : c ≠ 'U') (h2 : c ≠ 'F') :
    reGoQuery.run (c :: cs) = [] := by
  simp [reGoQuery, Regex.run, Ne.symm h1, Ne.symm h2]

theorem reGoQuery_find (v : Str) (hv : v ≠ []) (hq : '\"' ∉ v) :
    reGoQuery.FindStringSubmatch ("name := r.URL.Query().Get(\"".toList ++ v ++ "\")".toList)
      = some ["URL.Query().Get(\"".toList ++ v ++ "\")".toList, v] := by
  obtain ⟨tl, htl⟩ := reGoQuery_run_hit v [] hv hq
  have h := Regex.find_hit _ _ _ _ htl
  have hline : "name := r.URL.Query().Get(\"".toList ++ v ++ "\")".toList
      = "name := r.".toList ++ ("URL.Query().Get(\"".toList ++ v ++ "\")".toList ++ []) := by
    simp
  rw [Regex.FindStringSubmatch, hline]
  have hfind : reGoQuery.find ("name := r.".toList ++ ("URL.Query().Get(\"".toList ++ v ++ "\")".toList ++ []))
      = reGoQuery.find ("URL.Query().Get(\"".toList ++ v ++ "\")".toList ++ []) := by
    simp only [String.toList, List.cons_append, List.nil_append]
    iterate 10 rw [Regex.find_skip _ _ _ (reGoQuery_run_miss _ _ (by decide) (by decide))]
  rw [hfind, h]
  rfl

theorem eq_of_append_cons_eq {q : Char} (a a' b b' : Str) (ha : q ∉ a) (ha' : q ∉ a')
    (h : a ++ q :: b = a' ++ q :: b') : a = a' := by
  induction a generalizing a' with
  | nil =>
    cases a' with
    | nil => rfl
    | cons c a' =>
      simp at h
      exact absurd (by simp [h.1]) ha'
  | cons c a ih =>
    cases a' with
    | nil =>
      simp at h
      exact absurd (by simp [h.1]) ha
    | cons c' a' =>
      simp at h
      have := ih a' (fun e => ha (by simp [e])) (fun e => ha' (by simp [e])) h.2
      rw [h.1, this]

theorem quotedCall_matches (L w : Str) (h : (quotedCall L).Matches w) :
    ∃ x, w = L ++ '\"' :: (x ++ ['\"', ')']) ∧ x ≠ [] ∧ '\"' ∉ x := by
  simp only [quotedCall, Regex.Matches] at h
  obtain ⟨u, t, rfl, rfl, x, y, rfl, ⟨hx1, hx2⟩, rfl⟩ := h
  refine ⟨x, by simp, hx1, ?_⟩
  intro hmem
  have := hx2 _ hmem
  simp [notDQuote] at this

/-- A line with exactly one quoted argument, `A"v")`, holds no quoted call of `L`
unless `A` ends with `L`. -/
theorem quotedCall_no_match (L A v : Str) (hLA : ¬ L <:+ A) (hA : '\"' ∉ A) (hv : '\"' ∉ v)
    (hL : '\"' ∉ L) (pre w post : Str) (h : A ++ '\"' :: (v ++ ['\"', ')']) = pre ++ w ++ post) :
    ¬ (quotedCall L).Matches w := by
  intro hm
  obtain ⟨x, rfl, _, hx⟩ := quotedCall_matches L w hm
  have hcount := congrArg (List.count '\"') h
  simp [List.count_append, List.count_cons, List.count_eq_zero_of_not_mem, hA, hv, hL, hx] at hcount
  have hpre : '\"' ∉ pre := fun e => by
    have := List.count_pos_iff.2 e
    omega
  have hpl : '\"' ∉ pre ++ L := by simp [hpre, hL]
  have h' : A ++ '\"' :: (v ++ ['\"', ')']) = (pre ++ L) ++ '\"' :: (x ++ ['\"', ')'] ++ post) := by
    rw [h]; simp
  exact hLA ⟨pre, (eq_of_append_cons_eq _ _ _ _ hA hpl h').symm⟩

theorem reGoEnv_find (v : Str) (hq : '\"' ∉ v) :
    reGoEnv.FindStringSubmatch ("name := r.URL.Query().Get(\"".toList ++ v ++ "\")".toList)
      = none := by
  have hline : "name := r.URL.Query().Get(\"".toList ++ v ++ "\")".toList
      = "name := r.URL.Query().Get(".toList ++ '\"' :: (v ++ ['\"', ')']) := by simp
  have hre : reGoEnv = quotedCall "os.Getenv(".toList := rfl
  rw [Regex.FindStringSubmatch, hline, hre, Regex.find_eq_none_of_forall]
  · rfl
  · exact quotedCall_no_match _ _ v (by decide) (by decide) hq (by decide)

theorem reGoHeader_find (v : Str) (hq : '\"' ∉ v) :
    reGoHeader.FindStringSubmatch ("name := r.URL.Query().Get(\"".toList ++ v ++ "\")".toList)
      = none := by
  have hline : "name := r.URL.Query().Get(\"".toList ++ v ++ "\")".toList
      = "name := r.URL.Query().Get(".toList ++ '\"' :: (v ++ ['\"', ')']) := by simp
  have hre : reGoHeader = quotedCall "Header.Get(".toList := rfl
  rw [Regex.FindStringSubmatch, hline, hre, Regex.find_eq_none_of_forall]
  · rfl
  · exact quotedCall_no_match _ _ v (by decide) (by decide) hq (by decide)

theorem scanStep_eq (path ext : Str) (i : Nat) (line : Str) (out : List Boundary) (r : rule) :
    scanStep path ext i line out r = out ++ (scanRule path ext i line r).toList := by
  unfold scanStep scanRule
  split
  · simp
  · split
    · simp
    · split <;> simp

theorem foldl_scanStep (path ext : Str) (i : Nat) (line : Str) (rs : List rule)
    (out : List Boundary) :
    rs.foldl (scanStep path ext i line) out = out ++ rs.filterMap (scanRule path ext i line) := by
  induction rs generalizing out with
  | nil => simp
  | cons r rs ih =>
    rw [List.foldl_cons, ih, scanStep_eq, List.filterMap_cons]
    cases scanRule path ext i line r <;> simp

/-- The loops of `ScanContent` as a comprehension: for every line in order, the findings of
the rules in table order. -/
theorem ScanContent_eq_flatMap (content path ext : Str) :
    ScanContent content path ext
      = (splitNewline content).enum.flatMap fun il =>
          rules.filterMap (scanRule path ext il.1 il.2) := by
  have h : ∀ (ls : List (Nat × Str)) (out : List Boundary),
      ls.foldl (fun out il => rules.foldl (scanStep path ext il.1 il.2) out) out
        = out ++ ls.flatMap fun il => rules.filterMap (scanRule path ext il.1 il.2) := by
    intro ls
    induction ls with
    | nil => intro out; simp
    | cons l ls ih =>
      intro out
      rw [List.foldl_cons, ih, foldl_scanStep, List.flatMap_cons, List.append_assoc]
  simpa [ScanContent] using h _ []

/-- C1: for every non-empty `v` without double quote and newline, scanning the single
line `name := r.URL.Query().Get("v")` as a `.go` file returns exactly one finding: line 1,
type `http_query`, source `URL Query`, variable `v`, file the given path. -/
theorem C1_scan_go_query (v path : Str) (hv : v ≠ []) (hq : '\"' ∉ v) (hn : '\n' ∉ v) :
    ScanContent ("name := r.URL.Query().Get(\"".toList ++ v ++ "\")".toList) path ".go".toList
      = [{ File := path, Line := 1, Type_ := "http_query".toList,
           Source := "URL Query".toList, Variable := v,
           Validation := genValidation "http_query".toList,
           FuzzInputs := genFuzz "http_query".toList }] := by
  have hsplit : splitNewline ("name := r.URL.Query().Get(\"".toList ++ v ++ "\")".toList)
      = ["name := r.URL.Query().Get(\"".toList ++ v ++ "\")".toList] :=
    splitNewline_of_not_mem _ (by simp [hn])
  simp only [ScanContent_eq_flatMap, hsplit, List.enum_singleton, List.flatMap_singleton, rules,
    List.filterMap_cons, List.filterMap_nil, scanRule, reGoQuery_find v hv hq,
    reGoEnv_find v hq, reGoHeader_find v hq]
  simp [hasExt]

theorem C1_scan_go_query_witness :
    "username".toList ≠ [] ∧ '\"' ∉ "username".toList ∧ '\n' ∉ "username".toList ∧
    ScanContent "name := r.URL.Query().Get(\"username\")".toList "handler.go".toList ".go".toList
      = [{ File := "handler.go".toList, Line := 1, Type_ := "http_query".toList,
           Source := "URL Query".toList, Variable := "username".toList,
           Validation := genValidation "http_query".toList,
           FuzzInputs := genFuzz "http_query".toList }] :=
  ⟨by decide, by decide, by decide,
    C1_scan_go_query "username".toList "handler.go".toList (by decide) (by decide) (by decide)⟩

/-! ## fuzzgen.go: the function name -/

namespace FuzzGen

theorem fuzzStep_ascii (G : GoLib) (st : Str × Bool) (r : Char) (h : r.toNat < 128) :
    fuzzStep G st r = fuzzStep GoLib.ascii st r := by
  simp only [fuzzStep, G.isLetter_ascii r h, G.isDigit_ascii r h, G.toUpper_ascii r h,
    GoLib.ascii.isLetter_ascii r h, GoLib.ascii.isDigit_ascii r h, GoLib.ascii.toUpper_ascii r h]

theorem foldl_fuzzStep_ascii (G : GoLib) (name : Str) (st : Str × Bool)
    (h : ∀ c ∈ name, c.toNat < 128) :
    name.foldl (fuzzStep G) st = name.foldl (fuzzStep GoLib.ascii) st := by
  induction name generalizing st with
  | nil => rfl
  | cons c cs ih =>
    simp only [List.foldl_cons]
    rw [fuzzStep_ascii G st c (h c (by simp)), ih _ (fun d hd => h d (by simp [hd]))]

/-- On an ASCII name the result does not depend on the Unicode tables. -/
theorem fuzzFuncName_ascii (G : GoLib) (name : Str) (h : ∀ c ∈ name, c.toNat < 128) :
    fuzzFuncName G name = fuzzFuncName GoLib.ascii name := by
  simp only [fuzzFuncName, foldl_fuzzStep_ascii G name _ h]

/-- The loop of `fuzzFuncName` from an arbitrary state: with `upper` set the remaining
runs are all capitalised; with `upper` clear the first piece continues the current run. -/
theorem foldl_fuzzStep_runs (G : GoLib) (name : Str) (acc : Str) :
    (name.foldl (fuzzStep G) (acc, true)).1
        = acc ++ ((alnumRuns G name).map (capitalize G)).flatten ∧
    ∀ q qs, name.splitOnP (isSeparator G) = q :: qs →
      (name.foldl (fuzzStep G) (acc, false)).1
        = acc ++ q ++ (((qs.filter fun run => !run.isEmpty).map (capitalize G)).flatten) := by
  induction name generalizing acc with
  | nil =>
    refine ⟨by simp [alnumRuns], ?_⟩
    intro q qs h
    simp at h
    obtain ⟨rfl, rfl⟩ := h
    simp
  | cons c cs ih =>
    by_cases hsep : isSeparator G c = true
    · have hstep : ∀ b, fuzzStep G (acc, b) c = (acc, true) := by
        intro b
        have : (!G.isLetter c && !G.isDigit c) = true := hsep
        simp [fuzzStep, this]
      refine ⟨?_, ?_⟩
      · rw [List.foldl_cons, hstep, (ih acc).1]
        simp [alnumRuns, List.splitOnP_cons, hsep]
      · intro q qs h
        rw [List.splitOnP_cons, if_pos hsep] at h
        simp at h
        obtain ⟨rfl, rfl⟩ := h
        rw [List.foldl_cons, hstep, (ih acc).1]
        simp [alnumRuns]
    · have hsep' : (!G.isLetter c && !G.isDigit c) = false := by
        simpa [isSeparator] using hsep
      obtain ⟨q, qs, hq⟩ := List.exists_cons_of_ne_nil (List.splitOnP_ne_nil (isSeparator G) cs)
      have hsplit : (c :: cs).splitOnP (isSeparator G) = (c :: q) :: qs := by
        rw [List.splitOnP_cons, if_neg hsep, hq]
        rfl
      refine ⟨?_, ?_⟩
      · have hstep : fuzzStep G (acc, true) c = (acc ++ [G.toUpper c], false) := by
          simp [fuzzStep, hsep']
        rw [List.foldl_cons, hstep, (ih _).2 q qs hq]
        simp [alnumRuns, hsplit, capitalize]
      · intro q' qs' h
        rw [hsplit] at h
        simp at h
        obtain ⟨rfl, rfl⟩ := h
        have hstep : fuzzStep G (acc, false) c = (acc ++ [c], false) := by
          simp [fuzzStep, hsep']
        rw [List.foldl_cons, hstep, (ih _).2 q qs hq]
        simp

/-- C2: `fuzzFuncName` is `Fuzz` followed by the maximal letter/digit runs of the name, in
order, each with its first character upper-cased and the others unchanged, separators
dropped; `user_name`, `api-key` and `DB.host` give `FuzzUserName`, `FuzzApiKey` and
`FuzzDBHost`. -/
theorem C2_fuzzFuncName_runs (G : GoLib) (name : Str) :
    fuzzFuncName G name = specFuncName G name ∧
    fuzzFuncName G "user_name".toList = "FuzzUserName".toList ∧
    fuzzFuncName G "api-key".toList = "FuzzApiKey".toList ∧
    fuzzFuncName G "DB.host".toList = "FuzzDBHost".toList := by
  refine ⟨(foldl_fuzzStep_runs G name _).1, ?_, ?_, ?_⟩
  · rw [fuzzFuncName_ascii G _ (by decide)]; decide
  · rw [fuzzFuncName_ascii G _ (by decide)]; decide
  · rw [fuzzFuncName_ascii G _ (by decide)]; decide

/-! ## fuzzgen.go: the string entry point -/

theorem wrap64_of_range (x : Int) (h1 : -(2 ^ 63) ≤ x) (h2 : x < 2 ^ 63) : wrap64 x = x := by
  unfold wrap64
  omega

theorem writeFuzzFunc_string (G : GoLib) (e : BoundaryEntry) (ht : e.Type_ = "string".toList) :
    writeFuzzFunc G e = writeStringFuzz G (fuzzFuncName G e.Name) e := by
  simp [writeFuzzFunc, ht]

theorem flatMap_add_quote (G : GoLib) (l : List Str) :
    (l.flatMap fun fi => sprintf G "\tf.Add(%q)\n".toList [.str fi])
      = (l.map (quote G)).flatMap fun s => "\tf.Add(".toList ++ s ++ ")\n".toList := by
  induction l with
  | nil => rfl
  | cons a l ih =>
    rw [List.flatMap_cons, ih, List.map_cons, List.flatMap_cons]
    simp [sprintf]

theorem sprintf_header (G : GoLib) (name : Str) :
    sprintf G "func %s(f *testing.F) \x7b\n".toList [.str name]
      = "func ".toList ++ name ++ "(f *testing.F) \x7b\n".toList := by
  simp [sprintf]

theorem sprintf_make (G : GoLib) (n : Int) :
    sprintf G "\tf.Add(string(make([]byte, %d)))\n".toList [.int n]
      = "\tf.Add(".toList ++ ("string(make([]byte, ".toList ++ fmtInt n ++ "))".toList)
        ++ ")\n".toList := by
  simp [sprintf]

theorem sprintf_nil (G : GoLib) (fmt : Str) : sprintf G fmt [] = fmt := by
  induction fmt with
  | nil => rfl
  | cons c cs ih =>
    rw [sprintf]
    · rw [ih]
    all_goals (intros; simp_all)

/-- C10, as amended: for a string-typed entry whose `MaxLen = L` is below the largest
`int`, the seed lines of the entry point are, in order, `""`, `"a"`, then for `L > 1` a
`string(make([]byte, L-1))`, then for `L > 0` the same with `L` and with `L+1`, then every
`FuzzInputs` value, Go-quoted, in the given order. -/
theorem C10_string_seeds (G : GoLib) (e : BoundaryEntry)
    (ht : e.Type_ = "string".toList) (hL : e.MaxLen < 2 ^ 63 - 1) :
    writeFuzzFunc G e
      = "func ".toList ++ fuzzFuncName G e.Name ++ "(f *testing.F) \x7b\n".toList
        ++ ((["\"\"".toList, "\"a\"".toList]
              ++ (if e.MaxLen > 1 then
                    ["string(make([]byte, ".toList ++ fmtInt (e.MaxLen - 1) ++ "))".toList]
                  else [])
              ++ (if e.MaxLen > 0 then
                    ["string(make([]byte, ".toList ++ fmtInt e.MaxLen ++ "))".toList,
                     "string(make([]byte, ".toList ++ fmtInt (e.MaxLen + 1) ++ "))".toList]
                  else [])
              ++ e.FuzzInputs.map (quote G)).flatMap
            fun seed => "\tf.Add(".toList ++ seed ++ ")\n".toList)
        ++ "\tf.Fuzz(func(t *testing.T, v string) \x7b\n\t\t_ = v\n\t\x7d)\n\x7d\n".toList := by
  rw [writeFuzzFunc_string G e ht, writeStringFuzz, flatMap_add_quote]
  simp only [sprintf_header, sprintf_make, sprintf_nil]
  by_cases h1 : e.MaxLen > 1
  · have h0 : e.MaxLen > 0 := by omega
    rw [if_pos h1, if_pos h0, if_pos h1, if_pos h0,
      wrap64_of_range (e.MaxLen - 1) (by omega) (by omega),
      wrap64_of_range (e.MaxLen + 1) (by omega) (by omega)]
    simp only [List.flatMap_append, List.flatMap_cons, List.flatMap_nil, List.append_assoc,
      List.append_nil, List.nil_append]
    rfl
  · by_cases h0 : e.MaxLen > 0
    · rw [if_neg h1, if_pos h0, if_neg h1, if_pos h0,
        wrap64_of_range (e.MaxLen + 1) (by omega) (by omega)]
      simp only [List.flatMap_append, List.flatMap_cons, List.flatMap_nil, List.append_assoc,
        List.append_nil, List.nil_append]
      rfl
    · rw [if_neg h1, if_neg h0, if_neg h1, if_neg h0]
      simp only [List.flatMap_append, List.flatMap_cons, List.flatMap_nil, List.append_assoc,
        List.append_nil, List.nil_append]
      rfl

theorem C10_string_seeds_witness :
    writeFuzzFunc GoLib.ascii
        ⟨"username".toList, "string".toList, "http_query".toList, 0, 0, 255,
          ["<script>".toList]⟩
      = "func ".toList ++ "FuzzUsername".toList ++ "(f *testing.F) \x7b\n".toList
        ++ (["\"\"".toList, "\"a\"".toList,
              "string(make([]byte, 254))".toList,
              "string(make([]byte, 255))".toList,
              "string(make([]byte, 256))".toList,
              "\"<script>\"".toList].flatMap
            fun seed => "\tf.Add(".toList ++ seed ++ ")\n".toList)
        ++ "\tf.Fuzz(func(t *testing.T, v string) \x7b\n\t\t_ = v\n\t\x7d)\n\x7d\n".toList :=
  C10_string_seeds GoLib.ascii
    ⟨"username".toList, "string".toList, "http_query".toList, 0, 0, 255, ["<script>".toList]⟩
    rfl (by decide)

set_option maxRecDepth 100000 in
/-- C10, counterexample: with `MaxLen` the largest `int`, `MaxLen+1` wraps around and the
third length seed is `string(make([]byte, -9223372036854775808))`; no seed of length
`MaxLen+1` is written. -/
theorem C10_maxint_seed_wraps :
    writeFuzzFunc GoLib.ascii
        ⟨"s".toList, "string".toList, [], 0, 0, 9223372036854775807, []⟩
      = ("func FuzzS(f *testing.F) \x7b\n\tf.Add(\"\")\n\tf.Add(\"a\")\n".toList
          ++ "\tf.Add(string(make([]byte, 9223372036854775806)))\n".toList
          ++ "\tf.Add(string(make([]byte, 9223372036854775807)))\n".toList
          ++ "\tf.Add(string(make([]byte, -9223372036854775808)))\n".toList
          ++ "\tf.Fuzz(func(t *testing.T, v string) \x7b\n\t\t_ = v\n\t\x7d)\n\x7d\n".toList) ∧
    ¬ ("string(make([]byte, 9223372036854775808))".toList
        <:+: writeFuzzFunc GoLib.ascii
          ⟨"s".toList, "string".toList, [], 0, 0, 9223372036854775807, []⟩) := by
  decide

end FuzzGen

/-! ## rulegen.go -/

namespace RuleGen

theorem stringsJoin_eq_intercalate (l : List Str) (sep : Str) :
    stringsJoin l sep = sep.intercalate l := by
  induction l with
  | nil => rfl
  | cons a l ih =>
    cases l with
    | nil => simp [stringsJoin, List.intercalate]
    | cons b l =>
      rw [stringsJoin, ih]
      simp [List.intercalate]

theorem maxLengthRule_GoCode (G : GoLib) (e : BoundaryEntry) :
    (maxLengthRule G e).GoCode
      = "if len(".toList ++ e.ParamName ++ ") > ".toList ++ fmtInt e.MaxLength
        ++ " \x7b\n\treturn fmt.Errorf(\"".toList
        ++ (e.ParamName ++ " exceeds max length ".toList ++ fmtInt e.MaxLength)
        ++ "\")\n\x7d".toList := by
  simp [maxLengthRule, sprintf]

theorem minLengthRule_GoCode (G : GoLib) (e : BoundaryEntry) :
    (minLengthRule G e).GoCode
      = "if len(".toList ++ e.ParamName ++ ") < ".toList ++ fmtInt e.MinLength
        ++ " \x7b\n\treturn fmt.Errorf(\"".toList
        ++ (e.ParamName ++ " must be at least ".toList ++ fmtInt e.MinLength
            ++ " characters".toList)
        ++ "\")\n\x7d".toList := by
  simp [minLengthRule, sprintf]

theorem rangeRule_GoCode (G : GoLib) (e : BoundaryEntry) :
    (rangeRule G e).GoCode
      = "if ".toList
        ++ (e.ParamName ++ " < ".toList ++ fmtInt e.MinValue ++ " || ".toList
            ++ e.ParamName ++ " > ".toList ++ fmtInt e.MaxValue)
        ++ " \x7b\n\treturn fmt.Errorf(\"".toList
        ++ (e.ParamName ++ " must be between ".toList ++ fmtInt e.MinValue
            ++ " and ".toList ++ fmtInt e.MaxValue)
        ++ "\")\n\x7d".toList := by
  simp [rangeRule, sprintf]

theorem enumRule_GoCode (G : GoLib) (e : BoundaryEntry) :
    (enumRule G e).GoCode
      = "switch ".toList ++ e.ParamName ++ " \x7b\ncase ".toList
        ++ ", ".toList.intercalate (e.EnumValues.map (quote G))
        ++ ":\n\t// valid\ndefault:\n\treturn fmt.Errorf(\"".toList
        ++ (e.ParamName ++ " must be one of [".toList
            ++ ", ".toList.intercalate e.EnumValues ++ "]".toList)
        ++ "\")\n\x7d".toList := by
  have hq : (fun v => sprintf G "%q".toList [Arg.str v]) = quote G := by
    funext v
    simp [sprintf]
  simp only [enumRule, hq, stringsJoin_eq_intercalate]
  simp [sprintf]

theorem regexRule_GoCode (G : GoLib) (e : BoundaryEntry) :
    (regexRule G e).GoCode
      = "if matched, _ := regexp.MatchString(".toList ++ quote G e.RegexPattern
        ++ ", ".toList ++ e.ParamName ++ "); !matched".toList
        ++ " \x7b\n\treturn fmt.Errorf(\"".toList
        ++ (e.ParamName ++ " does not match required pattern".toList)
        ++ "\")\n\x7d".toList := by
  simp [regexRule, sprintf]

/-- The shape of `rulesForEntry`: the rules of the type switch, then the enum rule, then
the regex rule. -/
theorem rulesForEntry_eq (G : GoLib) (e : BoundaryEntry) :
    rulesForEntry G e
      = (if e.DataType = "string".toList then
           (if e.MaxLength > 0 then [maxLengthRule G e] else [])
             ++ (if e.MinLength > 0 then [minLengthRule G e] else [])
         else if e.DataType = "int".toList then [rangeRule G e] else [])
        ++ (if e.EnumValues ≠ [] then [enumRule G e] else [])
        ++ (if e.RegexPattern ≠ [] then [regexRule G e] else []) := by
  have hlen : (e.EnumValues.length > 0) ↔ e.EnumValues ≠ [] := by
    simp [List.length_pos]
  simp only [rulesForEntry, hlen]
  split_ifs <;> simp

theorem filter_range (G : GoLib) (e : BoundaryEntry) :
    (rulesForEntry G e).filter (fun r => decide (r.RuleType = "range".toList))
      = if e.DataType = "int".toList then [rangeRule G e] else [] := by
  rw [rulesForEntry_eq]
  simp only [List.filter_append]
  split_ifs <;> simp_all [maxLengthRule, minLengthRule, rangeRule, enumRule, regexRule]

theorem filter_enum (G : GoLib) (e : BoundaryEntry) :
    (rulesForEntry G e).filter (fun r => decide (r.RuleType = "enum".toList))
      = if e.EnumValues ≠ [] then [enumRule G e] else [] := by
  rw [rulesForEntry_eq]
  simp only [List.filter_append]
  split_ifs <;> simp_all [maxLengthRule, minLengthRule, rangeRule, enumRule, regexRule]

theorem filter_regex (G : GoLib) (e : BoundaryEntry) :
    (rulesForEntry G e).filter (fun r => decide (r.RuleType = "regex".toList))
      = if e.RegexPattern ≠ [] then [regexRule G e] else [] := by
  rw [rulesForEntry_eq]
  simp only [List.filter_append]
  split_ifs <;> simp_all [maxLengthRule, minLengthRule, rangeRule, enumRule, regexRule]

/-- C3: an entry with `DataType` `int` yields exactly one rule of type `range`, whatever
its bounds; the rule carries the entry's `ParamName`, its code is one `if` on the combined
condition `name < MinValue || name > MaxValue` and returns an `fmt.Errorf` whose message
names both bounds. -/
theorem C3_int_single_range_rule (G : GoLib) (e : BoundaryEntry)
    (h : e.DataType = "int".toList) :
    ∃ r : ValidationRule,
      (rulesForEntry G e).filter (fun r => decide (r.RuleType = "range".toList)) = [r] ∧
      r.RuleType = "range".toList ∧
      r.ParamName = e.ParamName ∧
      r.GoCode = "if ".toList
        ++ (e.ParamName ++ " < ".toList ++ fmtInt e.MinValue ++ " || ".toList
            ++ e.ParamName ++ " > ".toList ++ fmtInt e.MaxValue)
        ++ " \x7b\n\treturn fmt.Errorf(\"".toList
        ++ (e.ParamName ++ " must be between ".toList ++ fmtInt e.MinValue
            ++ " and ".toList ++ fmtInt e.MaxValue)
        ++ "\")\n\x7d".toList ∧
      (e.ParamName ++ " < ".toList ++ fmtInt e.MinValue ++ " || ".toList
          ++ e.ParamName ++ " > ".toList ++ fmtInt e.MaxValue) <:+: r.GoCode ∧
      ("return fmt.Errorf(\"".toList ++ e.ParamName ++ " must be between ".toList
          ++ fmtInt e.MinValue ++ " and ".toList ++ fmtInt e.MaxValue ++ "\")".toList)
        <:+: r.GoCode := by
  refine ⟨rangeRule G e, ?_, rfl, rfl, rangeRule_GoCode G e, ?_, ?_⟩
  · rw [filter_range, if_pos h]
  · rw [rangeRule_GoCode]
    exact ⟨"if ".toList, " \x7b\n\treturn fmt.Errorf(\"".toList
        ++ (e.ParamName ++ " must be between ".toList ++ fmtInt e.MinValue
            ++ " and ".toList ++ fmtInt e.MaxValue)
        ++ "\")\n\x7d".toList, by simp⟩
  · rw [rangeRule_GoCode]
    exact ⟨"if ".toList ++ (e.ParamName ++ " < ".toList ++ fmtInt e.MinValue ++ " || ".toList
            ++ e.ParamName ++ " > ".toList ++ fmtInt e.MaxValue) ++ " \x7b\n\t".toList,
      "\n\x7d".toList, by simp⟩

theorem C3_int_single_range_rule_witness :
    (⟨"age".toList, "int".toList, 0, 0, 0, 150, [], []⟩ : BoundaryEntry).DataType = "int".toList ∧
    ∃ r : ValidationRule,
      (rulesForEntry GoLib.ascii ⟨"age".toList, "int".toList, 0, 0, 0, 150, [], []⟩).filter
        (fun r => decide (r.RuleType = "range".toList)) = [r] ∧
      r.RuleType = "range".toList ∧
      r.ParamName = "age".toList ∧
      r.GoCode = "if age < 0 || age > 150 \x7b\n\treturn fmt.Errorf(\"age must be between 0 and 150\")\n\x7d".toList ∧
      "age < 0 || age > 150".toList <:+: r.GoCode ∧
      "return fmt.Errorf(\"age must be between 0 and 150\")".toList <:+: r.GoCode :=
  ⟨rfl, C3_int_single_range_rule GoLib.ascii ⟨"age".toList, "int".toList, 0, 0, 0, 150, [], []⟩ rfl⟩

/-- C4: an entry of type `string` without enum values and pattern yields the max-length rule
when `MaxLength > 0`, followed by the min-length rule when `MinLength > 0`, both of type
`length`; with both bounds positive these are exactly two rules, the max rule first. -/
theorem C4_string_length_rules (G : GoLib) (e : BoundaryEntry)
    (hs : e.DataType = "string".toList) (he : e.EnumValues = []) (hr : e.RegexPattern = []) :
    ∃ maxR minR : ValidationRule,
      rulesForEntry G e
        = (if e.MaxLength > 0 then [maxR] else []) ++ (if e.MinLength > 0 then [minR] else []) ∧
      maxR.RuleType = "length".toList ∧ minR.RuleType = "length".toList ∧
      maxR.ParamName = e.ParamName ∧ minR.ParamName = e.ParamName ∧
      ("len(".toList ++ e.ParamName ++ ") > ".toList ++ fmtInt e.MaxLength) <:+: maxR.GoCode ∧
      ("len(".toList ++ e.ParamName ++ ") < ".toList ++ fmtInt e.MinLength) <:+: minR.GoCode ∧
      (e.MaxLength > 0 → e.MinLength > 0 → rulesForEntry G e = [maxR, minR]) := by
  have hrules : rulesForEntry G e
      = (if e.MaxLength > 0 then [maxLengthRule G e] else [])
        ++ (if e.MinLength > 0 then [minLengthRule G e] else []) := by
    rw [rulesForEntry_eq]
    simp [hs, he, hr]
  refine ⟨maxLengthRule G e, minLengthRule G e, hrules, rfl, rfl, rfl, rfl, ?_, ?_, ?_⟩
  · rw [maxLengthRule_GoCode]
    exact ⟨"if ".toList, " \x7b\n\treturn fmt.Errorf(\"".toList
        ++ (e.ParamName ++ " exceeds max length ".toList ++ fmtInt e.MaxLength)
        ++ "\")\n\x7d".toList, by simp⟩
  · rw [minLengthRule_GoCode]
    exact ⟨"if ".toList, " \x7b\n\treturn fmt.Errorf(\"".toList
        ++ (e.ParamName ++ " must be at least ".toList ++ fmtInt e.MinLength
            ++ " characters".toList)
        ++ "\")\n\x7d".toList, by simp⟩
  · intro h1 h2
    rw [hrules, if_pos h1, if_pos h2]
    rfl

theorem C4_string_length_rules_witness :
    (⟨"password".toList, "string".toList, 128, 8, 0, 0, [], []⟩ : BoundaryEntry).DataType
      = "string".toList ∧
    ∃ maxR minR : ValidationRule,
      rulesForEntry GoLib.ascii ⟨"password".toList, "string".toList, 128, 8, 0, 0, [], []⟩
        = (if (128 : Int) > 0 then [maxR] else []) ++ (if (8 : Int) > 0 then [minR] else []) ∧
      maxR.RuleType = "length".toList ∧ minR.RuleType = "length".toList ∧
      maxR.ParamName = "password".toList ∧ minR.ParamName = "password".toList ∧
      "len(password) > 128".toList <:+: maxR.GoCode ∧
      "len(password) < 8".toList <:+: minR.GoCode ∧
      ((128 : Int) > 0 → (8 : Int) > 0 →
        rulesForEntry GoLib.ascii ⟨"password".toList, "string".toList, 128, 8, 0, 0, [], []⟩
          = [maxR, minR]) :=
  ⟨rfl, C4_string_length_rules GoLib.ascii
    ⟨"password".toList, "string".toList, 128, 8, 0, 0, [], []⟩ rfl rfl rfl⟩

/-- C5: for every entry, whatever its `DataType`, there is exactly one rule of type `enum`
when `EnumValues` is not empty and none when it is empty; its code is a `switch` on the
parameter with one `case` listing every allowed value, each Go-quoted, separated by a comma
and a space, in the given order, then a `default:` branch returning an error that lists
the allowed values in the given order. -/
theorem C5_enum_rule (G : GoLib) (e : BoundaryEntry) :
    ∃ r : ValidationRule,
      (rulesForEntry G e).filter (fun r => decide (r.RuleType = "enum".toList))
        = (if e.EnumValues ≠ [] then [r] else []) ∧
      r.RuleType = "enum".toList ∧
      r.ParamName = e.ParamName ∧
      r.GoCode = "switch ".toList ++ e.ParamName ++ " \x7b\ncase ".toList
        ++ ", ".toList.intercalate (e.EnumValues.map (quote G))
        ++ ":\n\t// valid\ndefault:\n\treturn fmt.Errorf(\"".toList
        ++ (e.ParamName ++ " must be one of [".toList
            ++ ", ".toList.intercalate e.EnumValues ++ "]".toList)
        ++ "\")\n\x7d".toList :=
  ⟨enumRule G e, filter_enum G e, rfl, rfl, enumRule_GoCode G e⟩

theorem mem_rulesForEntry (G : GoLib) (e : BoundaryEntry) (r : ValidationRule)
    (hr : r ∈ rulesForEntry G e) :
    (r = maxLengthRule G e ∧ e.DataType = "string".toList ∧ e.MaxLength > 0) ∨
    (r = minLengthRule G e ∧ e.DataType = "string".toList ∧ e.MinLength > 0) ∨
    (r = rangeRule G e ∧ e.DataType = "int".toList) ∨
    (r = enumRule G e ∧ e.EnumValues ≠ []) ∨
    (r = regexRule G e ∧ e.RegexPattern ≠ []) := by
  rw [rulesForEntry_eq] at hr
  simp only [List.mem_append] at hr
  rcases hr with (hr | hr) | hr
  · by_cases h1 : e.DataType = "string".toList
    · rw [if_pos h1] at hr
      rcases List.mem_append.1 hr with hr | hr
      · by_cases h3 : e.MaxLength > 0
        · rw [if_pos h3] at hr
          exact Or.inl ⟨List.mem_singleton.1 hr, h1, h3⟩
        · rw [if_neg h3] at hr
          exact absurd hr (List.not_mem_nil _)
      · by_cases h3 : e.MinLength > 0
        · rw [if_pos h3] at hr
          exact Or.inr (Or.inl ⟨List.mem_singleton.1 hr, h1, h3⟩)
        · rw [if_neg h3] at hr
          exact absurd hr (List.not_mem_nil _)
    · rw [if_neg h1] at hr
      by_cases h2 : e.DataType = "int".toList
      · rw [if_pos h2] at hr
        exact Or.inr (Or.inr (Or.inl ⟨List.mem_singleton.1 hr, h2⟩))
      · rw [if_neg h2] at hr
        exact absurd hr (List.not_mem_nil _)
  · by_cases h1 : e.EnumValues ≠ []
    · rw [if_pos h1] at hr
      exact Or.inr (Or.inr (Or.inr (Or.inl ⟨List.mem_singleton.1 hr, h1⟩)))
    · rw [if_neg h1] at hr
      exact absurd hr (List.not_mem_nil _)
  · by_cases h1 : e.RegexPattern ≠ []
    · rw [if_pos h1] at hr
      exact Or.inr (Or.inr (Or.inr (Or.inr ⟨List.mem_singleton.1 hr, h1⟩)))
    · rw [if_neg h1] at hr
      exact absurd hr (List.not_mem_nil _)

theorem paramName_of_mem (G : GoLib) (e : BoundaryEntry) (r : ValidationRule)
    (hr : r ∈ rulesForEntry G e) : r.ParamName = e.ParamName := by
  rcases mem_rulesForEntry G e r hr with h | h | h | h | h <;> rw [h.1] <;> rfl

/-- C6, as amended: every generated rule's code ends in a `return fmt.Errorf` whose message
starts with the parameter name; the message of a length rule carries the length bound, of a
range rule both bounds, of an enum rule the allowed values.  The message of a regex rule is
`name does not match required pattern`: the pattern is in the condition, not in the
message. -/
theorem C6_error_message (G : GoLib) (e : BoundaryEntry) (r : ValidationRule)
    (hr : r ∈ rulesForEntry G e) :
    ∃ cond msg : Str,
      r.GoCode = cond ++ "\n\treturn fmt.Errorf(\"".toList ++ msg ++ "\")\n\x7d".toList ∧
      e.ParamName <+: msg ∧
      ((r.RuleType = "length".toList ∧
          msg = e.ParamName ++ " exceeds max length ".toList ++ fmtInt e.MaxLength ∧
          fmtInt e.MaxLength <:+: msg) ∨
       (r.RuleType = "length".toList ∧
          msg = e.ParamName ++ " must be at least ".toList ++ fmtInt e.MinLength
            ++ " characters".toList ∧
          fmtInt e.MinLength <:+: msg) ∨
       (r.RuleType = "range".toList ∧
          msg = e.ParamName ++ " must be between ".toList ++ fmtInt e.MinValue
            ++ " and ".toList ++ fmtInt e.MaxValue ∧
          fmtInt e.MinValue <:+: msg ∧ fmtInt e.MaxValue <:+: msg) ∨
       (r.RuleType = "enum".toList ∧
          msg = e.ParamName ++ " must be one of [".toList
            ++ ", ".toList.intercalate e.EnumValues ++ "]".toList ∧
          ", ".toList.intercalate e.EnumValues <:+: msg) ∨
       (r.RuleType = "regex".toList ∧
          cond = "if matched, _ := regexp.MatchString(".toList ++ quote G e.RegexPattern
            ++ ", ".toList ++ e.ParamName ++ "); !matched \x7b".toList ∧
          msg = e.ParamName ++ " does not match required pattern".toList)) := by
  rcases mem_rulesForEntry G e r hr with h | h | h | h | h
  · refine ⟨"if len(".toList ++ e.ParamName ++ ") > ".toList ++ fmtInt e.MaxLength
        ++ " \x7b".toList,
      e.ParamName ++ " exceeds max length ".toList ++ fmtInt e.MaxLength, ?_, ?_, ?_⟩
    · rw [h.1, maxLengthRule_GoCode]
      simp
    · exact ⟨" exceeds max length ".toList ++ fmtInt e.MaxLength, by simp⟩
    · exact Or.inl ⟨by rw [h.1]; rfl, rfl,
        ⟨e.ParamName ++ " exceeds max length ".toList, [], by simp⟩⟩
  · refine ⟨"if len(".toList ++ e.ParamName ++ ") < ".toList ++ fmtInt e.MinLength
        ++ " \x7b".toList,
      e.ParamName ++ " must be at least ".toList ++ fmtInt e.MinLength
        ++ " characters".toList, ?_, ?_, ?_⟩
    · rw [h.1, minLengthRule_GoCode]
      simp
    · exact ⟨" must be at least ".toList ++ fmtInt e.MinLength ++ " characters".toList,
        by simp⟩
    · exact Or.inr (Or.inl ⟨by rw [h.1]; rfl, rfl,
        ⟨e.ParamName ++ " must be at least ".toList, " characters".toList, by simp⟩⟩)
  · refine ⟨"if ".toList
        ++ (e.ParamName ++ " < ".toList ++ fmtInt e.MinValue ++ " || ".toList
            ++ e.ParamName ++ " > ".toList ++ fmtInt e.MaxValue) ++ " \x7b".toList,
      e.ParamName ++ " must be between ".toList ++ fmtInt e.MinValue
        ++ " and ".toList ++ fmtInt e.MaxValue, ?_, ?_, ?_⟩
    · rw [h.1, rangeRule_GoCode]
      simp
    · exact ⟨" must be between ".toList ++ fmtInt e.MinValue
        ++ " and ".toList ++ fmtInt e.MaxValue, by simp⟩
    · exact Or.inr (Or.inr (Or.inl ⟨by rw [h.1]; rfl, rfl,
        ⟨e.ParamName ++ " must be between ".toList, " and ".toList ++ fmtInt e.MaxValue,
          by simp⟩,
        ⟨e.ParamName ++ " must be between ".toList ++ fmtInt e.MinValue ++ " and ".toList,
          [], by simp⟩⟩))
  · refine ⟨"switch ".toList ++ e.ParamName ++ " \x7b\ncase ".toList
        ++ ", ".toList.intercalate (e.EnumValues.map (quote G))
        ++ ":\n\t// valid\ndefault:".toList,
      e.ParamName ++ " must be one of [".toList
        ++ ", ".toList.intercalate e.EnumValues ++ "]".toList, ?_, ?_, ?_⟩
    · rw [h.1, enumRule_GoCode]
      simp
    · exact ⟨" must be one of [".toList ++ ", ".toList.intercalate e.EnumValues
        ++ "]".toList, by simp⟩
    · exact Or.inr (Or.inr (Or.inr (Or.inl ⟨by rw [h.1]; rfl, rfl,
        ⟨e.ParamName ++ " must be one of [".toList, "]".toList, by simp⟩⟩)))
  · refine ⟨"if matched, _ := regexp.MatchString(".toList ++ quote G e.RegexPattern
        ++ ", ".toList ++ e.ParamName ++ "); !matched \x7b".toList,
      e.ParamName ++ " does not match required pattern".toList, ?_, ?_, ?_⟩
    · rw [h.1, regexRule_GoCode]
      simp
    · exact ⟨_, rfl⟩
    · exact Or.inr (Or.inr (Or.inr (Or.inr ⟨by rw [h.1]; rfl, rfl, rfl⟩)))

theorem C6_error_message_witness :
    regexRule GoLib.ascii ⟨"zip".toList, "string".toList, 0, 0, 0, 0, [], "^[0-9]+$".toList⟩
      ∈ rulesForEntry GoLib.ascii
          ⟨"zip".toList, "string".toList, 0, 0, 0, 0, [], "^[0-9]+$".toList⟩ ∧
    ∃ cond msg : Str,
      (regexRule GoLib.ascii ⟨"zip".toList, "string".toList, 0, 0, 0, 0, [],
          "^[0-9]+$".toList⟩).GoCode
        = cond ++ "\n\treturn fmt.Errorf(\"".toList ++ msg ++ "\")\n\x7d".toList ∧
      "zip".toList <+: msg :=
  ⟨by decide,
    (C6_error_message GoLib.ascii
      ⟨"zip".toList, "string".toList, 0, 0, 0, 0, [], "^[0-9]+$".toList⟩ _ (by decide)).imp
      fun _ h => h.imp fun _ h' => ⟨h'.1, h'.2.1⟩⟩

/-- C6, counterexample: for the entry `zip` of type `string` with pattern `^[0-9]+$` the
only rule is the regex rule, and the text of its code from `return` on, which holds the
error message, does not contain the pattern. -/
theorem C6_regex_message_lacks_pattern :
    rulesForEntry GoLib.ascii
        ⟨"zip".toList, "string".toList, 0, 0, 0, 0, [], "^[0-9]+$".toList⟩
      = [⟨"zip".toList, "regex".toList,
          "if matched, _ := regexp.MatchString(\"^[0-9]+$\", zip); !matched \x7b\n".toList
            ++ "\treturn fmt.Errorf(\"zip does not match required pattern\")\n\x7d".toList⟩] ∧
    ¬ ("^[0-9]+$".toList
        <:+: "\treturn fmt.Errorf(\"zip does not match required pattern\")\n\x7d".toList) := by
  decide

/-- C7: for every entry there is exactly one rule of type `regex` when `RegexPattern` is
not empty and none when it is empty; that rule is the last rule of the entry, carries the
entry's `ParamName`, and its code calls `regexp.MatchString` on the Go-quoted pattern and the
parameter and returns an error when `matched` is false. -/
theorem C7_regex_rule (G : GoLib) (e : BoundaryEntry) :
    ∃ r : ValidationRule,
      (rulesForEntry G e).filter (fun r => decide (r.RuleType = "regex".toList))
        = (if e.RegexPattern ≠ [] then [r] else []) ∧
      (e.RegexPattern ≠ [] → (rulesForEntry G e).getLast? = some r) ∧
      r.RuleType = "regex".toList ∧
      r.ParamName = e.ParamName ∧
      r.GoCode = "if matched, _ := regexp.MatchString(".toList ++ quote G e.RegexPattern
        ++ ", ".toList ++ e.ParamName ++ "); !matched".toList
        ++ " \x7b\n\treturn fmt.Errorf(\"".toList
        ++ (e.ParamName ++ " does not match required pattern".toList)
        ++ "\")\n\x7d".toList := by
  refine ⟨regexRule G e, filter_regex G e, ?_, rfl, rfl, regexRule_GoCode G e⟩
  intro h
  rw [rulesForEntry_eq, if_pos h, List.getLast?_append]
  rfl

/-- C8: an entry with no enum values and no pattern whose type is neither `string` nor
`int`, or is `string` with `MaxLength <= 0` and `MinLength <= 0`, yields the empty list of
rules; an entry of type `int` always yields at least one rule. -/
theorem C8_no_condition_no_rule (G : GoLib) (e : BoundaryEntry)
    (he : e.EnumValues = []) (hr : e.RegexPattern = [])
    (ht : (e.DataType ≠ "string".toList ∧ e.DataType ≠ "int".toList) ∨
          (e.DataType = "string".toList ∧ e.MaxLength ≤ 0 ∧ e.MinLength ≤ 0)) :
    rulesForEntry G e = [] ∧
    ∀ e' : BoundaryEntry, e'.DataType = "int".toList → 1 ≤ (rulesForEntry G e').length := by
  refine ⟨?_, ?_⟩
  · rw [rulesForEntry_eq]
    rcases ht with ⟨h1, h2⟩ | ⟨h1, h2, h3⟩
    · rw [if_neg h1, if_neg h2]
      simp [he, hr]
    · rw [if_pos h1]
      simp [he, hr, not_lt.2 h2, not_lt.2 h3]
  · intro e' h'
    rw [rulesForEntry_eq, if_neg (by rw [h']; decide), if_pos h']
    simp only [List.length_append, List.length_singleton]
    omega

theorem C8_no_condition_no_rule_witness :
    rulesForEntry GoLib.ascii ⟨"note".toList, "string".toList, 0, -1, 5, 9, [], []⟩ = [] ∧
    1 ≤ (rulesForEntry GoLib.ascii ⟨"age".toList, "int".toList, 0, 0, 0, 0, [], []⟩).length :=
  ⟨(C8_no_condition_no_rule GoLib.ascii
      ⟨"note".toList, "string".toList, 0, -1, 5, 9, [], []⟩
      rfl rfl (Or.inr ⟨rfl, by decide, by decide⟩)).1,
   (C8_no_condition_no_rule GoLib.ascii
      ⟨"note".toList, "string".toList, 0, -1, 5, 9, [], []⟩
      rfl rfl (Or.inr ⟨rfl, by decide, by decide⟩)).2 _ rfl⟩

theorem GenerateRules_eq_flatMap (G : GoLib) (entries : List BoundaryEntry) :
    GenerateRules G entries = entries.flatMap (rulesForEntry G) := by
  have h : ∀ (es : List BoundaryEntry) (acc : List ValidationRule),
      es.foldl (fun out e => out ++ rulesForEntry G e) acc
        = acc ++ es.flatMap (rulesForEntry G) := by
    intro es
    induction es with
    | nil => intro acc; simp
    | cons e es ih => intro acc; simp [ih]
  simpa [GenerateRules] using h entries []

/-- C9: `GenerateRules` is the in-order concatenation of the per-entry results: it is empty
on the empty list, distributes over `++`, is `rulesForEntry` on a single entry, and every
returned rule comes from an entry of the input and carries that entry's `ParamName`. -/
theorem C9_GenerateRules_concat (G : GoLib) (xs ys : List BoundaryEntry) (e : BoundaryEntry) :
    GenerateRules G [] = [] ∧
    GenerateRules G (xs ++ ys) = GenerateRules G xs ++ GenerateRules G ys ∧
    GenerateRules G [e] = rulesForEntry G e ∧
    GenerateRules G xs = (xs.map (rulesForEntry G)).flatten ∧
    ∀ r ∈ GenerateRules G xs, ∃ e' ∈ xs, r ∈ rulesForEntry G e' ∧ r.ParamName = e'.ParamName := by
  refine ⟨rfl, ?_, ?_, ?_, ?_⟩
  · simp [GenerateRules_eq_flatMap]
  · simp [GenerateRules_eq_flatMap]
  · simp [GenerateRules_eq_flatMap, List.flatMap]
  · intro r hr
    rw [GenerateRules_eq_flatMap, List.mem_flatMap] at hr
    obtain ⟨e', he', hr'⟩ := hr
    exact ⟨e', he', hr', paramName_of_mem G e' r hr'⟩

end RuleGen

/-! ## fuzzgen.go: the numeric entry points and the file -/

namespace FuzzGen

theorem wrapU64_of_range (x : Int) (h1 : 0 ≤ x) (h2 : x < 2 ^ 64) : wrapU64 x = x := by
  unfold wrapU64
  omega

theorem wrapU64_succ (x : Int) : wrapU64 (wrapU64 x + 1) = wrapU64 (x + 1) := by
  unfold wrapU64
  omega

theorem sprintf_int64 (G : GoLib) (n : Int) :
    sprintf G "\tf.Add(int64(%d))\n".toList [.int n]
      = "\tf.Add(".toList ++ ("int64(".toList ++ fmtInt n ++ ")".toList) ++ ")\n".toList := by
  simp [sprintf]

theorem sprintf_uint64 (G : GoLib) (n : Int) :
    sprintf G "\tf.Add(uint64(%d))\n".toList [.int n]
      = "\tf.Add(".toList ++ ("uint64(".toList ++ fmtInt n ++ ")".toList) ++ ")\n".toList := by
  simp [sprintf]

theorem sprintf_float64 (G : GoLib) (x d : Int) :
    sprintf G "\tf.Add(float64(%g))\n".toList [.flt x d]
      = "\tf.Add(".toList ++ ("float64(".toList ++ G.fmtFloat x d ++ ")".toList)
        ++ ")\n".toList := by
  simp [sprintf]

theorem writeFuzzFunc_int (G : GoLib) (e : BoundaryEntry) (ht : e.Type_ = "int".toList) :
    writeFuzzFunc G e = writeIntFuzz G (fuzzFuncName G e.Name) e := by
  simp [writeFuzzFunc, ht]

theorem writeFuzzFunc_uint (G : GoLib) (e : BoundaryEntry) (ht : e.Type_ = "uint".toList) :
    writeFuzzFunc G e = writeUintFuzz G (fuzzFuncName G e.Name) e := by
  simp [writeFuzzFunc, ht]

/-- The text of the `int` entry point: five seed lines whose third and fourth numbers are
the `int64` values of the source expressions `e.Min-1` and `e.Max+1`. -/
theorem writeFuzzFunc_int_seeds (G : GoLib) (e : BoundaryEntry)
    (ht : e.Type_ = "int".toList) :
    writeFuzzFunc G e
      = "func ".toList ++ fuzzFuncName G e.Name ++ "(f *testing.F) \x7b\n".toList
        ++ (["int64(".toList ++ fmtInt e.Min ++ ")".toList,
             "int64(".toList ++ fmtInt e.Max ++ ")".toList,
             "int64(".toList ++ fmtInt (wrap64 (e.Min - 1)) ++ ")".toList,
             "int64(".toList ++ fmtInt (wrap64 (e.Max + 1)) ++ ")".toList,
             "int64(0)".toList].flatMap
            fun seed => "\tf.Add(".toList ++ seed ++ ")\n".toList)
        ++ "\tf.Fuzz(func(t *testing.T, v int64) \x7b\n\t\t_ = v\n\t\x7d)\n\x7d\n".toList := by
  rw [writeFuzzFunc_int G e ht, writeIntFuzz]
  simp only [sprintf_header, sprintf_int64, sprintf_nil]
  simp only [List.flatMap_cons, List.flatMap_nil, List.append_assoc, List.append_nil]
  rfl

/-- C11, as amended: for an entry of type `int` whose `Min` is above the least `int64` and
whose `Max` is below the greatest `int64`, the entry point adds exactly five seeds, in the
order `Min`, `Max`, `Min-1`, `Max+1`, `0`, each rendered as `int64(<decimal>)`. -/
theorem C11_int_seeds (G : GoLib) (e : BoundaryEntry) (ht : e.Type_ = "int".toList)
    (hmin : -(2 ^ 63) < e.Min) (hmin2 : e.Min < 2 ^ 63)
    (hmax : -(2 ^ 63) ≤ e.Max) (hmax2 : e.Max < 2 ^ 63 - 1) :
    writeFuzzFunc G e
      = "func ".toList ++ fuzzFuncName G e.Name ++ "(f *testing.F) \x7b\n".toList
        ++ (["int64(".toList ++ fmtInt e.Min ++ ")".toList,
             "int64(".toList ++ fmtInt e.Max ++ ")".toList,
             "int64(".toList ++ fmtInt (e.Min - 1) ++ ")".toList,
             "int64(".toList ++ fmtInt (e.Max + 1) ++ ")".toList,
             "int64(0)".toList].flatMap
            fun seed => "\tf.Add(".toList ++ seed ++ ")\n".toList)
        ++ "\tf.Fuzz(func(t *testing.T, v int64) \x7b\n\t\t_ = v\n\t\x7d)\n\x7d\n".toList := by
  have h3 : wrap64 (e.Min - 1) = e.Min - 1 := wrap64_of_range _ (by omega) (by omega)
  have h4 : wrap64 (e.Max + 1) = e.Max + 1 := wrap64_of_range _ (by omega) (by omega)
  rw [writeFuzzFunc_int_seeds G e ht, h3, h4]

theorem C11_int_seeds_witness :
    writeFuzzFunc GoLib.ascii ⟨"age".toList, "int".toList, "http_query".toList, 0, 150, 0, []⟩
      = "func ".toList ++ "FuzzAge".toList ++ "(f *testing.F) \x7b\n".toList
        ++ (["int64(0)".toList, "int64(150)".toList, "int64(-1)".toList, "int64(151)".toList,
             "int64(0)".toList].flatMap
            fun seed => "\tf.Add(".toList ++ seed ++ ")\n".toList)
        ++ "\tf.Fuzz(func(t *testing.T, v int64) \x7b\n\t\t_ = v\n\t\x7d)\n\x7d\n".toList :=
  C11_int_seeds GoLib.ascii
    ⟨"age".toList, "int".toList, "http_query".toList, 0, 150, 0, []⟩ rfl
    (by decide) (by decide) (by decide) (by decide)

set_option maxRecDepth 100000 in
/-- C11, counterexample: with `Min` the least `int64` the third seed is not `Min-1`: the
text written is `int64(9223372036854775807)` and `int64(-9223372036854775809)` occurs
nowhere; with `Max` the greatest `int64` the fourth seed is not `Max+1`: the text written is
`int64(-9223372036854775808)` and `int64(9223372036854775808)` occurs nowhere. -/
theorem C11_seed_wraps_at_int64_ends :
    writeFuzzFunc GoLib.ascii
        ⟨"lo".toList, "int".toList, [], -9223372036854775808, 150, 0, []⟩
      = ("func FuzzLo(f *testing.F) \x7b\n".toList
          ++ "\tf.Add(int64(-9223372036854775808))\n".toList
          ++ "\tf.Add(int64(150))\n".toList
          ++ "\tf.Add(int64(9223372036854775807))\n".toList
          ++ "\tf.Add(int64(151))\n".toList
          ++ "\tf.Add(int64(0))\n".toList
          ++ "\tf.Fuzz(func(t *testing.T, v int64) \x7b\n\t\t_ = v\n\t\x7d)\n\x7d\n".toList) ∧
    fmtInt (-9223372036854775808 - 1) = "-9223372036854775809".toList ∧
    ¬ ("int64(-9223372036854775809)".toList
        <:+: writeFuzzFunc GoLib.ascii
          ⟨"lo".toList, "int".toList, [], -9223372036854775808, 150, 0, []⟩) ∧
    writeFuzzFunc GoLib.ascii
        ⟨"hi".toList, "int".toList, [], 0, 9223372036854775807, 0, []⟩
      = ("func FuzzHi(f *testing.F) \x7b\n".toList
          ++ "\tf.Add(int64(0))\n".toList
          ++ "\tf.Add(int64(9223372036854775807))\n".toList
          ++ "\tf.Add(int64(-1))\n".toList
          ++ "\tf.Add(int64(-9223372036854775808))\n".toList
          ++ "\tf.Add(int64(0))\n".toList
          ++ "\tf.Fuzz(func(t *testing.T, v int64) \x7b\n\t\t_ = v\n\t\x7d)\n\x7d\n".toList) ∧
    fmtInt (9223372036854775807 + 1) = "9223372036854775808".toList ∧
    ¬ ("int64(9223372036854775808)".toList
        <:+: writeFuzzFunc GoLib.ascii
          ⟨"hi".toList, "int".toList, [], 0, 9223372036854775807, 0, []⟩) := by
  decide

/-- C12: for an entry of type `uint` the seeds are, in order, `0`, then `Min-1` only when
`Min > 0`, then `Min`, `Max` and `Max+1`, each rendered as `uint64(<decimal>)` of the value
taken as an unsigned 64-bit magnitude (the value modulo 2^64, the value itself when it is
not negative). -/
theorem C12_uint_seeds (G : GoLib) (e : BoundaryEntry) (ht : e.Type_ = "uint".toList)
    (hmin : e.Min < 2 ^ 63) :
    writeFuzzFunc G e
      = "func ".toList ++ fuzzFuncName G e.Name ++ "(f *testing.F) \x7b\n".toList
        ++ ((["uint64(0)".toList]
              ++ (if e.Min > 0 then ["uint64(".toList ++ fmtInt (e.Min - 1) ++ ")".toList]
                  else [])
              ++ ["uint64(".toList ++ fmtInt (wrapU64 e.Min) ++ ")".toList,
                  "uint64(".toList ++ fmtInt (wrapU64 e.Max) ++ ")".toList,
                  "uint64(".toList ++ fmtInt (wrapU64 (e.Max + 1)) ++ ")".toList]).flatMap
            fun seed => "\tf.Add(".toList ++ seed ++ ")\n".toList)
        ++ "\tf.Fuzz(func(t *testing.T, v uint64) \x7b\n\t\t_ = v\n\t\x7d)\n\x7d\n".toList ∧
    (0 ≤ e.Min → wrapU64 e.Min = e.Min) ∧
    (0 ≤ e.Max → e.Max < 2 ^ 63 → wrapU64 e.Max = e.Max ∧ wrapU64 (e.Max + 1) = e.Max + 1) := by
  refine ⟨?_, ?_, ?_⟩
  · rw [writeFuzzFunc_uint G e ht, writeUintFuzz, wrapU64_succ]
    simp only [sprintf_header, sprintf_uint64, sprintf_nil]
    by_cases h0 : e.Min > 0
    · rw [if_pos h0, if_pos h0, wrap64_of_range (e.Min - 1) (by omega) (by omega),
        wrapU64_of_range (e.Min - 1) (by omega) (by omega)]
      simp only [List.flatMap_append, List.flatMap_cons, List.flatMap_nil, List.append_assoc,
        List.append_nil, List.nil_append]
      rfl
    · rw [if_neg h0, if_neg h0]
      simp only [List.flatMap_append, List.flatMap_cons, List.flatMap_nil, List.append_assoc,
        List.append_nil, List.nil_append]
      rfl
  · intro h
    exact wrapU64_of_range _ h (by omega)
  · intro h1 h2
    exact ⟨wrapU64_of_range _ h1 (by omega), wrapU64_of_range _ (by omega) (by omega)⟩

theorem C12_uint_seeds_witness :
    writeFuzzFunc GoLib.ascii ⟨"port".toList, "uint".toList, "env_var".toList, 1, 65535, 0, []⟩
      = "func ".toList ++ "FuzzPort".toList ++ "(f *testing.F) \x7b\n".toList
        ++ (["uint64(0)".toList, "uint64(0)".toList, "uint64(1)".toList,
             "uint64(65535)".toList, "uint64(65536)".toList].flatMap
            fun seed => "\tf.Add(".toList ++ seed ++ ")\n".toList)
        ++ "\tf.Fuzz(func(t *testing.T, v uint64) \x7b\n\t\t_ = v\n\t\x7d)\n\x7d\n".toList :=
  (C12_uint_seeds GoLib.ascii
    ⟨"port".toList, "uint".toList, "env_var".toList, 1, 65535, 0, []⟩ rfl (by decide)).1

theorem WriteFuzzTests_eq (G : GoLib) (entries : List BoundaryEntry) :
    WriteFuzzTests G entries
      = "package boundaryguard_test\n\nimport (\n\t\"testing\"\n)\n".toList
        ++ entries.flatMap fun e => '\n' :: writeFuzzFunc G e := by
  have h : ∀ (es : List BoundaryEntry) (w : Str),
      es.foldl (fun w e => w ++ fprintln [] ++ writeFuzzFunc G e) w
        = w ++ es.flatMap fun e => '\n' :: writeFuzzFunc G e := by
    intro es
    induction es with
    | nil => intro w; simp
    | cons e es ih =>
      intro w
      rw [List.foldl_cons, ih, List.flatMap_cons]
      simp [fprintln]
  rw [WriteFuzzTests, h]
  rfl

/-- C13: `GenerateFuzzTests` is the fixed preamble followed, for each entry in input order,
by one newline and the entry-point block of the entry; on the empty list it is the preamble
alone, and on `xs ++ ys` it is the output for `xs` followed by the blocks of `ys`. -/
theorem C13_file_structure (G : GoLib) (xs ys : List BoundaryEntry) :
    GenerateFuzzTests G xs
      = "package boundaryguard_test\n\nimport (\n\t\"testing\"\n)\n".toList
        ++ (xs.map fun e => "\n".toList ++ writeFuzzFunc G e).flatten ∧
    GenerateFuzzTests G [] = "package boundaryguard_test\n\nimport (\n\t\"testing\"\n)\n".toList ∧
    GenerateFuzzTests G (xs ++ ys)
      = GenerateFuzzTests G xs ++ (ys.map fun e => "\n".toList ++ writeFuzzFunc G e).flatten := by
  refine ⟨?_, ?_, ?_⟩
  · rw [GenerateFuzzTests, WriteFuzzTests_eq, List.flatMap]
    rfl
  · rfl
  · simp only [GenerateFuzzTests, WriteFuzzTests_eq, List.flatMap_append, List.append_assoc]
    rw [List.flatMap]
    rfl

/-- Every writer produces the same frame: the header with the function name, one `f.Add`
line per seed expression, and the fuzz target on the seed type. -/
theorem writeFuzzFunc_frame (G : GoLib) (e : BoundaryEntry) :
    writeFuzzFunc G e
      = "func ".toList ++ fuzzFuncName G e.Name ++ "(f *testing.F) \x7b\n".toList
        ++ ((seedExprs G e).flatMap fun seed => "\tf.Add(".toList ++ seed ++ ")\n".toList)
        ++ ("\tf.Fuzz(func(t *testing.T, v ".toList ++ seedType e
            ++ ") \x7b\n\t\t_ = v\n\t\x7d)\n\x7d\n".toList) := by
  unfold writeFuzzFunc seedExprs seedType
  by_cases h1 : e.Type_ = "int".toList
  · simp only [h1, if_true, writeIntFuzz, sprintf_header, sprintf_int64, sprintf_nil]
    simp only [List.flatMap_cons, List.flatMap_nil, List.append_assoc, List.append_nil]
    rfl
  · by_cases h2 : e.Type_ = "uint".toList
    · simp only [if_neg h1, if_pos h2, writeUintFuzz, sprintf_header, sprintf_uint64,
        sprintf_nil]
      by_cases h0 : e.Min > 0
      · simp only [if_pos h0, List.flatMap_append, List.flatMap_cons, List.flatMap_nil,
          List.append_assoc, List.append_nil, List.nil_append]
        rfl
      · simp only [if_neg h0, List.flatMap_append, List.flatMap_cons, List.flatMap_nil,
          List.append_assoc, List.append_nil, List.nil_append]
        rfl
    · by_cases h3 : e.Type_ = "float64".toList
      · simp only [if_neg h1, if_neg h2, if_pos h3, writeFloatFuzz, sprintf_header,
          sprintf_float64, sprintf_nil]
        simp only [List.flatMap_cons, List.flatMap_nil, List.append_assoc, List.append_nil]
        rfl
      · simp only [if_neg h1, if_neg h2, if_neg h3, writeStringFuzz, sprintf_header,
          sprintf_make, sprintf_nil, flatMap_add_quote]
        by_cases ha : e.MaxLen > 1 <;> by_cases hb : e.MaxLen > 0 <;>
          simp only [ha, hb, if_true, if_false, List.flatMap_append, List.flatMap_cons,
            List.flatMap_nil, List.append_assoc, List.append_nil, List.nil_append] <;>
          rfl

end FuzzGen

/-! ## The model of `strings.Count` -/

theorem prefix_of_prefix_append_cons {p a b : Str} {c : Char} (hc : c ∉ p)
    (h : p <+: a ++ c :: b) : p <+: a := by
  rcases List.prefix_or_prefix_of_prefix h (List.prefix_append a (c :: b)) with h1 | h1
  · exact h1
  · obtain ⟨t, rfl⟩ := h1
    rw [List.prefix_append_right_inj] at h
    cases t with
    | nil => simp
    | cons d t =>
      have hd : d = c := by
        obtain ⟨u, hu⟩ := h
        simp at hu
        exact hu.1
      exact absurd (by simp [hd]) hc

theorem countFrom_nil (p : Str) (k : Nat) : countFrom p k [] = 0 := by
  cases k <;> rfl

/-- An instance cannot reach over a character that is not in the pattern: the count splits
at such a character. -/
theorem countFrom_append_cons (p : Str) (c : Char) (hc : c ∉ p) (hp : p ≠ []) (a b : Str)
    (k : Nat) (hk : k ≤ a.length) :
    countFrom p k (a ++ c :: b) = countFrom p k a + countFrom p 0 b := by
  induction a generalizing k with
  | nil =>
    have hk0 : k = 0 := by simpa using hk
    subst hk0
    have hnp : ¬ p <+: c :: b := by
      intro h
      cases p with
      | nil => exact hp rfl
      | cons d p =>
        obtain ⟨u, hu⟩ := h
        simp at hu
        exact hc (by simp [hu.1])
    simp [countFrom, hnp]
  | cons x a ih =>
    cases k with
    | zero =>
      by_cases hpre : p <+: x :: a
      · have hpre' : p <+: x :: a ++ c :: b := hpre.trans (List.prefix_append _ _)
        have hlen : p.length - 1 ≤ a.length := by
          have := hpre.length_le
          simp at this
          omega
        rw [List.cons_append, countFrom, if_pos (by simpa using hpre'), ih _ hlen, countFrom,
          if_pos hpre]
        omega
      · have hpre' : ¬ p <+: x :: (a ++ c :: b) := by
          intro h
          exact hpre (prefix_of_prefix_append_cons hc (by simpa using h))
        rw [List.cons_append, countFrom, if_neg hpre', ih 0 (Nat.zero_le _), countFrom,
          if_neg hpre]
    | succ k =>
      rw [List.cons_append, countFrom, countFrom, ih k (by simpa using hk)]

/-- A text that lacks one of the characters of the pattern holds no instance of it. -/
theorem countFrom_eq_zero_of_not_mem (p s : Str) (c : Char) (hcp : c ∈ p) (hcs : c ∉ s)
    (k : Nat) : countFrom p k s = 0 := by
  induction s generalizing k with
  | nil => exact countFrom_nil p k
  | cons x s ih =>
    have hs : c ∉ s := fun h => hcs (List.mem_cons_of_mem _ h)
    cases k with
    | zero =>
      have hnp : ¬ p <+: x :: s := fun h => hcs (h.subset hcp)
      rw [countFrom, if_neg hnp, ih hs]
    | succ k => rw [countFrom, ih hs]

/-- A text that does not contain the pattern holds no instance of it. -/
theorem countFrom_eq_zero_of_not_infix (p s : Str) (h : ¬ p <:+: s) (k : Nat) :
    countFrom p k s = 0 := by
  induction s generalizing k with
  | nil => exact countFrom_nil p k
  | cons x s ih =>
    have hs : ¬ p <:+: s := fun hi => h (hi.trans (List.suffix_cons x s).isInfix)
    cases k with
    | zero =>
      have hnp : ¬ p <+: x :: s := fun hp => h hp.isInfix
      rw [countFrom, if_neg hnp, ih hs]
    | succ k => rw [countFrom, ih hs]

theorem countFrom_skip (p a b : Str) (k : Nat) :
    countFrom p (a.length + k) (a ++ b) = countFrom p k b := by
  induction a with
  | nil => simp
  | cons x a ih =>
    rw [List.length_cons, Nat.add_right_comm, List.cons_append, countFrom, ih]

/-- A text that starts with the pattern: one instance, then the count of what follows. -/
theorem countFrom_pattern_append (p x : Str) (hp : p ≠ []) :
    countFrom p 0 (p ++ x) = countFrom p 0 x + 1 := by
  cases p with
  | nil => exact absurd rfl hp
  | cons d p =>
    rw [List.cons_append, countFrom, if_pos (by simp)]
    have := countFrom_skip (d :: p) p x 0
    simpa using this

/-! ## fuzzgen.go: counting the entry points -/

namespace FuzzGen

theorem foldl_fuzzStep_chars (G : GoLib) (name : Str) (r : Str) (b : Bool)
    (hr : ∀ c ∈ r, (G.isLetter c || G.isDigit c) = true) :
    ∃ r', (name.foldl (fuzzStep G) ("Fuzz".toList ++ r, b)).1 = "Fuzz".toList ++ r' ∧
      ∀ c ∈ r', (G.isLetter c || G.isDigit c) = true := by
  induction name generalizing r b with
  | nil => exact ⟨r, rfl, hr⟩
  | cons x name ih =>
    rw [List.foldl_cons]
    by_cases hsep : (!G.isLetter x && !G.isDigit x) = true
    · have hstep : fuzzStep G ("Fuzz".toList ++ r, b) x = ("Fuzz".toList ++ r, true) := by
        simp [fuzzStep, hsep]
      rw [hstep]
      exact ih r true hr
    · have hx : (G.isLetter x || G.isDigit x) = true := by
        cases h1 : G.isLetter x <;> cases h2 : G.isDigit x <;> simp_all
      cases b with
      | true =>
        have hstep : fuzzStep G ("Fuzz".toList ++ r, true) x
            = ("Fuzz".toList ++ (r ++ [G.toUpper x]), false) := by
          simp [fuzzStep, hsep]
        rw [hstep]
        refine ih _ false ?_
        intro c hc
        rcases List.mem_append.1 hc with hc | hc
        · exact hr c hc
        · rw [List.mem_singleton.1 hc]
          exact G.toUpper_alnum x hx
      | false =>
        have hstep : fuzzStep G ("Fuzz".toList ++ r, false) x
            = ("Fuzz".toList ++ (r ++ [x]), false) := by
          simp [fuzzStep, hsep]
        rw [hstep]
        refine ih _ false ?_
        intro c hc
        rcases List.mem_append.1 hc with hc | hc
        · exact hr c hc
        · rw [List.mem_singleton.1 hc]
          exact hx

/-- The function name is `Fuzz` followed by letters and digits only. -/
theorem fuzzFuncName_chars (G : GoLib) (name : Str) :
    ∃ r, fuzzFuncName G name = "Fuzz".toList ++ r ∧
      ∀ c ∈ r, (G.isLetter c || G.isDigit c) = true := by
  have := foldl_fuzzStep_chars G name [] true (fun _ h => absurd h (List.not_mem_nil _))
  simpa [fuzzFuncName] using this

theorem count_header (G : GoLib) (name : Str) :
    countFrom "func Fuzz".toList 0
      ("func ".toList ++ fuzzFuncName G name ++ "(f *testing.F) \x7b".toList) = 1 := by
  obtain ⟨r, hr, hchars⟩ := fuzzFuncName_chars G name
  have hspace : ' ' ∉ r := by
    intro h
    have h1 := hchars ' ' h
    rw [G.isLetter_ascii ' ' (by decide), G.isDigit_ascii ' ' (by decide)] at h1
    exact absurd h1 (by decide)
  have hform : "func ".toList ++ fuzzFuncName G name ++ "(f *testing.F) \x7b".toList
      = "func Fuzz".toList ++ (r ++ '(' :: "f *testing.F) \x7b".toList) := by
    rw [hr]
    simp
  rw [hform, countFrom_pattern_append _ _ (by decide),
    countFrom_append_cons _ '(' (by decide) (by decide) _ _ 0 (Nat.zero_le _),
    countFrom_eq_zero_of_not_mem _ r ' ' (by decide) hspace]
  rfl

theorem count_addLine (seed : Str) :
    countFrom "func Fuzz".toList 0 ("\tf.Add(".toList ++ seed ++ ")".toList)
      = countFrom "func Fuzz".toList 0 seed := by
  have hform : "\tf.Add(".toList ++ seed ++ ")".toList
      = "\tf.Add".toList ++ '(' :: (seed ++ ')' :: []) := by simp
  rw [hform, countFrom_append_cons _ '(' (by decide) (by decide) _ _ 0 (Nat.zero_le _),
    countFrom_append_cons _ ')' (by decide) (by decide) _ _ 0 (Nat.zero_le _)]
  have h1 : countFrom "func Fuzz".toList 0 "\tf.Add".toList = 0 := by decide
  rw [h1, countFrom_nil]
  omega

theorem count_seedLines (seeds : List Str) (rest : Str) :
    countFrom "func Fuzz".toList 0
        ((seeds.flatMap fun seed => "\tf.Add(".toList ++ seed ++ ")\n".toList) ++ rest)
      = (seeds.map (countFrom "func Fuzz".toList 0)).sum
        + countFrom "func Fuzz".toList 0 rest := by
  induction seeds with
  | nil => simp
  | cons seed seeds ih =>
    have hform : ((seed :: seeds).flatMap fun seed =>
          "\tf.Add(".toList ++ seed ++ ")\n".toList) ++ rest
        = ("\tf.Add(".toList ++ seed ++ ")".toList) ++ '\n' ::
            ((seeds.flatMap fun seed => "\tf.Add(".toList ++ seed ++ ")\n".toList) ++ rest) := by
      simp
    rw [hform, countFrom_append_cons _ '\n' (by decide) (by decide) _ _ 0 (Nat.zero_le _),
      ih, count_addLine, List.map_cons, List.sum_cons]
    omega

theorem count_footer (e : BoundaryEntry) (rest : Str) :
    countFrom "func Fuzz".toList 0
        ("\tf.Fuzz(func(t *testing.T, v ".toList ++ seedType e
            ++ ") \x7b\n\t\t_ = v\n\t\x7d)\n\x7d\n".toList ++ rest)
      = countFrom "func Fuzz".toList 0 rest := by
  have hform : "\tf.Fuzz(func(t *testing.T, v ".toList ++ seedType e
        ++ ") \x7b\n\t\t_ = v\n\t\x7d)\n\x7d\n".toList ++ rest
      = ("\tf.Fuzz(func(t *testing.T, v ".toList ++ seedType e
          ++ ") \x7b\n\t\t_ = v\n\t\x7d)\n\x7d".toList) ++ '\n' :: rest := by
    simp
  have hzero : countFrom "func Fuzz".toList 0
      ("\tf.Fuzz(func(t *testing.T, v ".toList ++ seedType e
          ++ ") \x7b\n\t\t_ = v\n\t\x7d)\n\x7d".toList) = 0 := by
    unfold seedType
    split_ifs <;> decide
  rw [hform, countFrom_append_cons _ '\n' (by decide) (by decide) _ _ 0 (Nat.zero_le _), hzero]
  omega

/-- One block adds one instance for its header and the instances inside its seeds. -/
theorem count_block (G : GoLib) (e : BoundaryEntry) (rest : Str) :
    countFrom "func Fuzz".toList 0 ('\n' :: writeFuzzFunc G e ++ rest)
      = 1 + ((seedExprs G e).map (countFrom "func Fuzz".toList 0)).sum
        + countFrom "func Fuzz".toList 0 rest := by
  have hform : '\n' :: writeFuzzFunc G e ++ rest
      = [] ++ '\n' ::
        (("func ".toList ++ fuzzFuncName G e.Name ++ "(f *testing.F) \x7b".toList) ++ '\n' ::
          (((seedExprs G e).flatMap fun seed => "\tf.Add(".toList ++ seed ++ ")\n".toList)
            ++ ("\tf.Fuzz(func(t *testing.T, v ".toList ++ seedType e
                ++ ") \x7b\n\t\t_ = v\n\t\x7d)\n\x7d\n".toList ++ rest))) := by
    rw [writeFuzzFunc_frame]
    simp
  rw [hform, countFrom_append_cons _ '\n' (by decide) (by decide) _ _ 0 (Nat.zero_le _),
    countFrom_append_cons _ '\n' (by decide) (by decide) _ _ 0 (Nat.zero_le _),
    count_header, count_seedLines, count_footer, countFrom_nil]
  omega

/-- The number of instances of `func Fuzz` in the generated file: one per entry, plus the
instances inside the seed expressions. -/
theorem count_file (G : GoLib) (entries : List BoundaryEntry) :
    stringsCount (GenerateFuzzTests G entries) "func Fuzz".toList
      = entries.length
        + (entries.map fun e =>
            ((seedExprs G e).map (countFrom "func Fuzz".toList 0)).sum).sum := by
  have hblocks : ∀ es : List BoundaryEntry,
      countFrom "func Fuzz".toList 0 (es.flatMap fun e => '\n' :: writeFuzzFunc G e)
        = es.length
          + (es.map fun e =>
              ((seedExprs G e).map (countFrom "func Fuzz".toList 0)).sum).sum := by
    intro es
    induction es with
    | nil => rfl
    | cons e es ih =>
      rw [List.flatMap_cons, count_block, ih, List.length_cons, List.map_cons, List.sum_cons]
      omega
  have hform : GenerateFuzzTests G entries
      = "package boundaryguard_test\n\nimport (\n\t\"testing\"\n)".toList ++ '\n' ::
          (entries.flatMap fun e => '\n' :: writeFuzzFunc G e) := by
    rw [GenerateFuzzTests, WriteFuzzTests_eq]
    simp
  have hpre : countFrom "func Fuzz".toList 0
      "package boundaryguard_test\n\nimport (\n\t\"testing\"\n)".toList = 0 := by decide
  rw [stringsCount, if_neg (by decide), hform,
    countFrom_append_cons _ '\n' (by decide) (by decide) _ _ 0 (Nat.zero_le _), hpre, hblocks]
  omega

theorem z_not_mem_fmtFloat (G : GoLib) (x d : Int) : 'z' ∉ G.fmtFloat x d := by
  intro h
  rcases G.fmtFloat_chars x d 'z' h with h | h | h | h | h <;> exact absurd h (by decide)

theorem z_not_mem_fmtInt (n : Int) : 'z' ∉ fmtInt n := by
  have h := z_not_mem_fmtFloat GoLib.ascii n 0
  simpa [GoLib.ascii] using h

theorem sum_map_eq_zero (l : List Str) (f : Str → Nat) (h : ∀ x ∈ l, f x = 0) :
    (l.map f).sum = 0 := by
  induction l with
  | nil => rfl
  | cons a l ih =>
    rw [List.map_cons, List.sum_cons, h a (by simp), ih (fun x hx => h x (by simp [hx]))]

/-- A seed expression is a quoted `FuzzInputs` value of a string entry point, or it has no
letter `z`. -/
theorem seedExprs_cases (G : GoLib) (e : BoundaryEntry) (seed : Str)
    (hs : seed ∈ seedExprs G e) :
    'z' ∉ seed ∨
    (e.Type_ ≠ "int".toList ∧ e.Type_ ≠ "uint".toList ∧ e.Type_ ≠ "float64".toList ∧
      ∃ fi ∈ e.FuzzInputs, seed = quote G fi) := by
  unfold seedExprs at hs
  by_cases h1 : e.Type_ = "int".toList
  · rw [if_pos h1] at hs
    simp only [List.mem_cons, List.mem_singleton, List.not_mem_nil, or_false] at hs
    rcases hs with rfl | rfl | rfl | rfl | rfl <;> left <;> simp [z_not_mem_fmtInt]
  · rw [if_neg h1] at hs
    by_cases h2 : e.Type_ = "uint".toList
    · rw [if_pos h2] at hs
      simp only [List.mem_append, List.mem_cons, List.mem_singleton, List.not_mem_nil,
        or_false] at hs
      rcases hs with (rfl | hs) | rfl | rfl | rfl
      · left; decide
      · left
        split_ifs at hs
        · rw [List.mem_singleton.1 hs]
          simp [z_not_mem_fmtInt]
        · exact absurd hs (List.not_mem_nil _)
      · left; simp [z_not_mem_fmtInt]
      · left; simp [z_not_mem_fmtInt]
      · left; simp [z_not_mem_fmtInt]
    · rw [if_neg h2] at hs
      by_cases h3 : e.Type_ = "float64".toList
      · rw [if_pos h3] at hs
        simp only [List.mem_cons, List.mem_singleton, List.not_mem_nil, or_false] at hs
        rcases hs with rfl | rfl | rfl | rfl | rfl <;> left <;> simp [z_not_mem_fmtFloat]
      · rw [if_neg h3] at hs
        simp only [List.mem_append, List.mem_cons, List.mem_singleton, List.not_mem_nil,
          or_false, List.mem_map] at hs
        rcases hs with (((rfl | rfl) | hs) | hs) | ⟨fi, hfi, rfl⟩
        · left; decide
        · left; decide
        · left
          split_ifs at hs
          · rw [List.mem_singleton.1 hs]
            simp [z_not_mem_fmtInt]
          · exact absurd hs (List.not_mem_nil _)
        · left
          split_ifs at hs
          · simp only [List.mem_cons, List.mem_singleton, List.not_mem_nil, or_false] at hs
            rcases hs with rfl | rfl <;> simp [z_not_mem_fmtInt]
          · exact absurd hs (List.not_mem_nil _)
        · exact Or.inr ⟨h1, h2, h3, fi, hfi, rfl⟩

/-- C14, as amended: when no `FuzzInputs` value of an entry with the string entry point
contains, once Go-quoted, the text `func Fuzz`, the number of instances of `func Fuzz` in
the generated file is the number of entries. -/
theorem C14_one_entry_point_per_entry (G : GoLib) (entries : List BoundaryEntry)
    (h : ∀ e ∈ entries, e.Type_ ≠ "int".toList → e.Type_ ≠ "uint".toList →
      e.Type_ ≠ "float64".toList →
      ∀ fi ∈ e.FuzzInputs, ¬ "func Fuzz".toList <:+: quote G fi) :
    stringsCount (GenerateFuzzTests G entries) "func Fuzz".toList = entries.length := by
  rw [count_file]
  have hzero : (entries.map fun e =>
      ((seedExprs G e).map (countFrom "func Fuzz".toList 0)).sum).sum = 0 := by
    have hall : ∀ e ∈ entries,
        ((seedExprs G e).map (countFrom "func Fuzz".toList 0)).sum = 0 := by
      intro e he
      apply sum_map_eq_zero
      intro seed hseed
      rcases seedExprs_cases G e seed hseed with hz | ⟨h1, h2, h3, fi, hfi, rfl⟩
      · exact countFrom_eq_zero_of_not_mem _ _ 'z' (by decide) hz 0
      · exact countFrom_eq_zero_of_not_infix _ _ (h e he h1 h2 h3 fi hfi) 0
    clear h
    induction entries with
    | nil => rfl
    | cons e es ih =>
      rw [List.map_cons, List.sum_cons, hall e (by simp),
        ih (fun x hx => hall x (by simp [hx]))]
  rw [hzero]
  rfl

set_option maxRecDepth 100000 in
theorem C14_one_entry_point_per_entry_witness :
    stringsCount
        (GenerateFuzzTests GoLib.ascii
          [⟨"name".toList, "string".toList, [], 0, 0, 100, ["<script>".toList]⟩,
           ⟨"age".toList, "int".toList, [], 0, 150, 0, []⟩,
           ⟨"port".toList, "uint".toList, [], 1, 65535, 0, []⟩,
           ⟨"score".toList, "float64".toList, [], 0, 100, 0, []⟩])
        "func Fuzz".toList = 4 :=
  C14_one_entry_point_per_entry GoLib.ascii _ (by decide)

set_option maxRecDepth 100000 in
/-- C14, counterexample: one string entry whose `FuzzInputs` holds the text `func Fuzz` gives
a file with two instances of `func Fuzz`, the header and the quoted seed. -/
theorem C14_seed_text_is_counted :
    stringsCount
        (GenerateFuzzTests GoLib.ascii
          [⟨"x".toList, "string".toList, [], 0, 0, 0, ["func Fuzz".toList]⟩])
        "func Fuzz".toList = 2 ∧
    [(⟨"x".toList, "string".toList, [], 0, 0, 0, ["func Fuzz".toList]⟩
      : BoundaryEntry)].length = 1 := by
  decide

end FuzzGen

/-! ## scanner.go: order, multiplicity and content of the findings -/

theorem scanRule_some (path ext : Str) (i : Nat) (line : Str) (r : rule) (b : Boundary)
    (h : scanRule path ext i line r = some b) :
    hasExt r.exts ext = true ∧ b.File = path ∧ b.Line = (i : Int) + 1 ∧ b.Type_ = r.typ ∧
    b.Source = r.source ∧ b.Validation = genValidation r.typ ∧ b.FuzzInputs = genFuzz r.typ ∧
    ∃ m, r.re.FindStringSubmatch line = some m ∧ b.Variable = m.getD r.idx [] := by
  unfold scanRule at h
  split at h
  · exact absurd h (by simp)
  next hext =>
    split at h
    · exact absurd h (by simp)
    next m hm =>
      split at h
      · exact absurd h (by simp)
      · simp only [Option.some.injEq] at h
        subst h
        refine ⟨by simpa using hext, rfl, rfl, rfl, rfl, rfl, rfl, m, hm, rfl⟩

theorem mem_ScanContent (content path ext : Str) (b : Boundary)
    (hb : b ∈ ScanContent content path ext) :
    ∃ i line r, (i, line) ∈ (splitNewline content).enum ∧ r ∈ rules ∧
      scanRule path ext i line r = some b := by
  rw [ScanContent_eq_flatMap, List.mem_flatMap] at hb
  obtain ⟨⟨i, line⟩, hil, hb⟩ := hb
  rw [List.mem_filterMap] at hb
  obtain ⟨r, hr, hb⟩ := hb
  exact ⟨i, line, r, hil, hr, hb⟩

/-- The findings of one line carry labels of applicable rules, in table order. -/
theorem lineFindings_sublist (path ext : Str) (i : Nat) (line : Str) (rs : List rule) :
    List.Sublist
      ((rs.filterMap (scanRule path ext i line)).map fun b => (b.Type_, b.Source))
      ((rs.filter fun r => hasExt r.exts ext).map fun r => (r.typ, r.source)) := by
  induction rs with
  | nil => simp
  | cons r rs ih =>
    rw [List.filterMap_cons]
    cases hsr : scanRule path ext i line r with
    | none =>
      simp only
      rw [List.filter_cons]
      split
      · exact List.Sublist.cons _ ih
      · exact ih
    | some b =>
      obtain ⟨hext, _, _, ht, hs, _⟩ := scanRule_some path ext i line r b hsr
      simp only
      rw [List.filter_cons, if_pos hext, List.map_cons, List.map_cons, ht, hs]
      exact List.Sublist.cons₂ _ ih

theorem lineFindings_line (path ext : Str) (i : Nat) (line : Str) (b : Boundary)
    (hb : b ∈ rules.filterMap (scanRule path ext i line)) : b.Line = (i : Int) + 1 := by
  rw [List.mem_filterMap] at hb
  obtain ⟨r, _, hr⟩ := hb
  exact (scanRule_some path ext i line r b hr).2.2.1

/-- Findings of the lines numbered from `k`: their `Line` lies in `k+1 .. k+length`. -/
theorem enumFrom_findings_line (path ext : Str) (ls : List Str) (k : Nat) (b : Boundary)
    (hb : b ∈ (ls.enumFrom k).flatMap fun il =>
      rules.filterMap (scanRule path ext il.1 il.2)) :
    (k : Int) + 1 ≤ b.Line ∧ b.Line ≤ (k : Int) + ls.length := by
  induction ls generalizing k with
  | nil => simp at hb
  | cons l ls ih =>
    rw [List.enumFrom_cons, List.flatMap_cons, List.mem_append] at hb
    rcases hb with hb | hb
    · have := lineFindings_line path ext k l b hb
      simp only [List.length_cons, Nat.cast_add, Nat.cast_one]
      omega
    · have := ih (k + 1) hb
      simp only [List.length_cons, Nat.cast_add, Nat.cast_one] at this ⊢
      omega

theorem enumFrom_findings_pairwise (path ext : Str) (ls : List Str) (k : Nat) :
    (((ls.enumFrom k).flatMap fun il =>
      rules.filterMap (scanRule path ext il.1 il.2)).map fun b => b.Line).Pairwise (· ≤ ·) := by
  induction ls generalizing k with
  | nil => simp
  | cons l ls ih =>
    rw [List.enumFrom_cons, List.flatMap_cons, List.map_append, List.pairwise_append]
    refine ⟨?_, ih (k + 1), ?_⟩
    · apply List.pairwise_of_forall_mem_list
      intro a ha c hc
      obtain ⟨x, hx, rfl⟩ := List.mem_map.1 ha
      obtain ⟨y, hy, rfl⟩ := List.mem_map.1 hc
      rw [lineFindings_line path ext k l x hx, lineFindings_line path ext k l y hy]
    · intro a ha c hc
      obtain ⟨x, hx, rfl⟩ := List.mem_map.1 ha
      obtain ⟨y, hy, rfl⟩ := List.mem_map.1 hc
      have h1 := lineFindings_line path ext k l x hx
      have h2 := (enumFrom_findings_line path ext ls (k + 1) y hy).1
      simp only [Nat.cast_add, Nat.cast_one] at h2
      omega

theorem enumFrom_findings_filter (path ext : Str) (ls : List Str) (k : Nat) (n : Int) :
    List.Sublist
      ((((ls.enumFrom k).flatMap fun il =>
        rules.filterMap (scanRule path ext il.1 il.2)).filter
          fun b => decide (b.Line = n)).map fun b => (b.Type_, b.Source))
      (ruleLabels ext) := by
  induction ls generalizing k with
  | nil => simp
  | cons l ls ih =>
    rw [List.enumFrom_cons, List.flatMap_cons, List.filter_append, List.map_append]
    by_cases hn : n = (k : Int) + 1
    · have h1 : (rules.filterMap (scanRule path ext k l)).filter (fun b => decide (b.Line = n))
          = rules.filterMap (scanRule path ext k l) := by
        rw [List.filter_eq_self]
        intro b hb
        simp [lineFindings_line path ext k l b hb, hn]
      have h2 : ((ls.enumFrom (k + 1)).flatMap fun il =>
          rules.filterMap (scanRule path ext il.1 il.2)).filter (fun b => decide (b.Line = n))
          = [] := by
        rw [List.filter_eq_nil_iff]
        intro b hb
        have := (enumFrom_findings_line path ext ls (k + 1) b hb).1
        simp only [Nat.cast_add, Nat.cast_one] at this
        simp only [decide_eq_true_eq]
        omega
      rw [h1, h2, List.map_nil, List.append_nil]
      exact lineFindings_sublist path ext k l rules
    · have h1 : (rules.filterMap (scanRule path ext k l)).filter (fun b => decide (b.Line = n))
          = [] := by
        rw [List.filter_eq_nil_iff]
        intro b hb
        simp only [decide_eq_true_eq, lineFindings_line path ext k l b hb]
        exact fun h => hn h.symm
      rw [h1, List.map_nil, List.nil_append]
      exact ih (k + 1)

/-- C16: the findings come in encounter order: their `Line` fields are non-decreasing, every
`Line` lies between 1 and the number of lines of the content, and the findings of one line
carry the labels of applicable rules in table order (for `.go`: `http_query`, then
`env_var`, then `http_header`). -/
theorem C16_encounter_order (content path ext : Str) :
    ((ScanContent content path ext).map fun b => b.Line).Pairwise (· ≤ ·) ∧
    (∀ b ∈ ScanContent content path ext,
      1 ≤ b.Line ∧ b.Line ≤ ((splitNewline content).length : Int)) ∧
    (∀ n : Int,
      List.Sublist
        (((ScanContent content path ext).filter fun b => decide (b.Line = n)).map
          fun b => (b.Type_, b.Source))
        (ruleLabels ext)) ∧
    ruleLabels ".go".toList
      = [("http_query".toList, "URL Query".toList), ("env_var".toList, "Env Var".toList),
         ("http_header".toList, "HTTP Header".toList)] := by
  rw [ScanContent_eq_flatMap]
  refine ⟨enumFrom_findings_pairwise path ext _ 0, ?_,
    fun n => enumFrom_findings_filter path ext _ 0 n, by decide⟩
  intro b hb
  have := enumFrom_findings_line path ext _ 0 b hb
  simpa using this

theorem ruleLabels_of_other (ext : Str) (h1 : ext ≠ ".go".toList) (h2 : ext ≠ ".py".toList)
    (h3 : ext ≠ ".js".toList) (h4 : ext ≠ ".ts".toList) : ruleLabels ext = [] := by
  have e1 : hasExt [".go".toList] ext = false := by
    rw [hasExt, if_neg (fun h => h1 h.symm), hasExt]
  have e2 : hasExt [".py".toList] ext = false := by
    rw [hasExt, if_neg (fun h => h2 h.symm), hasExt]
  have e3 : hasExt [".js".toList, ".ts".toList] ext = false := by
    rw [hasExt, if_neg (fun h => h3 h.symm), hasExt, if_neg (fun h => h4 h.symm), hasExt]
  simp only [ruleLabels, rules, List.filter_cons, List.filter_nil, e1, e2, e3]
  rfl

theorem ruleLabels_nodup (ext : Str) : (ruleLabels ext).Nodup := by
  by_cases h1 : ext = ".go".toList
  · subst h1; decide
  · by_cases h2 : ext = ".py".toList
    · subst h2; decide
    · by_cases h3 : ext = ".js".toList
      · subst h3; decide
      · by_cases h4 : ext = ".ts".toList
        · subst h4; decide
        · rw [ruleLabels_of_other ext h1 h2 h3 h4]
          exact List.nodup_nil

theorem lineFindings_nodup (path ext : Str) (i : Nat) (line : Str) :
    ((rules.filterMap (scanRule path ext i line)).map
      fun b => (b.Line, b.Type_, b.Source)).Nodup := by
  have h := (lineFindings_sublist path ext i line rules).nodup (ruleLabels_nodup ext)
  have hmap : ((rules.filterMap (scanRule path ext i line)).map
        fun b => (b.Type_, b.Source))
      = ((rules.filterMap (scanRule path ext i line)).map
          fun b => (b.Line, b.Type_, b.Source)).map Prod.snd := by
    rw [List.map_map]
    rfl
  rw [hmap] at h
  exact List.Nodup.of_map _ h

theorem enumFrom_findings_nodup (path ext : Str) (ls : List Str) (k : Nat) :
    (((ls.enumFrom k).flatMap fun il =>
      rules.filterMap (scanRule path ext il.1 il.2)).map
        fun b => (b.Line, b.Type_, b.Source)).Nodup := by
  induction ls generalizing k with
  | nil => simp
  | cons l ls ih =>
    rw [List.enumFrom_cons, List.flatMap_cons, List.map_append, List.nodup_append]
    refine ⟨lineFindings_nodup path ext k l, ih (k + 1), ?_⟩
    intro t ht1 ht2
    obtain ⟨x, hx, rfl⟩ := List.mem_map.1 ht1
    obtain ⟨y, hy, hxy⟩ := List.mem_map.1 ht2
    have h1 := lineFindings_line path ext k l x hx
    have h2 := (enumFrom_findings_line path ext ls (k + 1) y hy).1
    have h3 : y.Line = x.Line := congrArg Prod.fst hxy
    simp only [Nat.cast_add, Nat.cast_one] at h2
    omega

/-- C17: at most one finding per line and rule: no two findings share `Line`, `Type` and
`Source`; a line holds at most 3 findings for `.go` and at most 2 for `.py`, `.js`, `.ts`;
of two `os.Getenv` calls on one `.go` line only the leftmost name is reported. -/
theorem C17_one_finding_per_line_and_rule (content path ext : Str) :
    ((ScanContent content path ext).map fun b => (b.Line, b.Type_, b.Source)).Nodup ∧
    (∀ n : Int,
      ((ScanContent content path ".go".toList).filter
        fun b => decide (b.Line = n)).length ≤ 3) ∧
    (∀ n : Int, ∀ ext' ∈ [".py".toList, ".js".toList, ".ts".toList],
      ((ScanContent content path ext').filter fun b => decide (b.Line = n)).length ≤ 2) ∧
    ScanContent "x := os.Getenv(\"A\") + os.Getenv(\"B\")".toList path ".go".toList
      = [{ File := path, Line := 1, Type_ := "env_var".toList, Source := "Env Var".toList,
           Variable := "A".toList, Validation := genValidation "env_var".toList,
           FuzzInputs := genFuzz "env_var".toList }] := by
  have hlen : ∀ (e : Str) (n : Int),
      ((ScanContent content path e).filter fun b => decide (b.Line = n)).length
        ≤ (ruleLabels e).length := by
    intro e n
    have h := (enumFrom_findings_filter path e (splitNewline content) 0 n).length_le
    rw [List.length_map] at h
    rw [ScanContent_eq_flatMap]
    exact h
  refine ⟨?_, fun n => hlen _ n, ?_, ?_⟩
  · rw [ScanContent_eq_flatMap]
    exact enumFrom_findings_nodup path ext _ 0
  · intro n ext' hext'
    simp only [List.mem_cons, List.mem_singleton, List.not_mem_nil, or_false] at hext'
    rcases hext' with rfl | rfl | rfl <;> exact hlen _ n
  · rfl

theorem rules_typ (r : rule) (hr : r ∈ rules) :
    r.typ = "http_query".toList ∨ r.typ = "http_header".toList ∨ r.typ = "env_var".toList := by
  simp only [rules, List.mem_cons, List.mem_singleton, List.not_mem_nil, or_false] at hr
  rcases hr with rfl | rfl | rfl | rfl | rfl | rfl | rfl <;> simp

/-- C18: every finding has one of the three types; its validation and fuzz descriptions are
the per-type lists `genValidation` and `genFuzz` of its type, which have at least 3 entries
starting with the two baseline rules, and at least 5 entries starting with the four baseline
seeds. -/
theorem C18_descriptions_by_type (content path ext : Str) (b : Boundary)
    (hb : b ∈ ScanContent content path ext) :
    b.Type_ ∈ ["http_query".toList, "http_header".toList, "env_var".toList] ∧
    b.Validation = genValidation b.Type_ ∧
    b.FuzzInputs = genFuzz b.Type_ ∧
    3 ≤ (genValidation b.Type_).length ∧
    ["check non-empty".toList, "max length 1024".toList] <+: genValidation b.Type_ ∧
    5 ≤ (genFuzz b.Type_).length ∧
    ["\"\"".toList, "\"<script>alert(1)</script>\"".toList, "\"' OR 1=1--\"".toList,
      "\"A\"x10000".toList] <+: genFuzz b.Type_ := by
  obtain ⟨i, line, r, _, hr, hsr⟩ := mem_ScanContent content path ext b hb
  obtain ⟨_, _, _, ht, _, hv, hf, _⟩ := scanRule_some path ext i line r b hsr
  rw [hv, hf, ht]
  rcases rules_typ r hr with h | h | h <;> rw [h] <;> decide

theorem C18_descriptions_by_type_witness :
    (⟨"handler.go".toList, 1, "http_query".toList, "URL Query".toList, "username".toList,
        genValidation "http_query".toList, genFuzz "http_query".toList⟩ : Boundary)
      ∈ ScanContent "name := r.URL.Query().Get(\"username\")".toList "handler.go".toList
          ".go".toList ∧
    genValidation "http_query".toList
      = ["check non-empty".toList, "max length 1024".toList,
         "sanitize HTML entities".toList, "validate against allowlist".toList] ∧
    5 ≤ (genFuzz "http_query".toList).length :=
  ⟨by decide, rfl,
    (C18_descriptions_by_type "name := r.URL.Query().Get(\"username\")".toList
      "handler.go".toList ".go".toList
      ⟨"handler.go".toList, 1, "http_query".toList, "URL Query".toList, "username".toList,
        genValidation "http_query".toList, genFuzz "http_query".toList⟩
      (by decide)).2.2.2.2.2.1⟩

/-! ## scanner.go: no false positives, shared patterns -/

theorem reGoQuery_matches (w : Str) (h : reGoQuery.Matches w) :
    "Get(\"".toList <:+: w ∨ "FormValue(\"".toList <:+: w := by
  simp only [reGoQuery, Regex.Matches] at h
  obtain ⟨u, t, rfl, hu, a, t', rfl, rfl, _⟩ := h
  rcases hu with rfl | rfl
  · exact Or.inl ⟨"URL.Query().".toList, t', by simp⟩
  · exact Or.inr ⟨[], t', by simp⟩

theorem reGoEnv_matches (w : Str) (h : reGoEnv.Matches w) : "Getenv(\"".toList <:+: w := by
  simp only [reGoEnv, Regex.Matches] at h
  obtain ⟨u, t, rfl, rfl, _⟩ := h
  exact ⟨"os.".toList, t, by simp⟩

theorem reGoHeader_matches (w : Str) (h : reGoHeader.Matches w) : "Get(\"".toList <:+: w := by
  simp only [reGoHeader, Regex.Matches] at h
  obtain ⟨u, t, rfl, rfl, _⟩ := h
  exact ⟨"Header.".toList, t, by simp⟩

theorem FindStringSubmatch_eq_none (re : Regex) (line : Str)
    (h : ∀ w, re.Matches w → ¬ w <:+: line) : re.FindStringSubmatch line = none := by
  rw [Regex.FindStringSubmatch, Regex.find_eq_none_of_forall]
  · rfl
  · intro pre w post hline hm
    exact h w hm ⟨pre, post, hline.symm⟩

theorem rules_empty_line (r : rule) (hr : r ∈ rules) : r.re.FindStringSubmatch [] = none := by
  simp only [rules, List.mem_cons, List.mem_singleton, List.not_mem_nil, or_false] at hr
  rcases hr with rfl | rfl | rfl | rfl | rfl | rfl | rfl <;> rfl

/-- C19: no false positives: when no line of the content contains `Get("`, `FormValue("` or
`Getenv("`, the scan of the content as a `.go` file is empty; the scan of the empty content
is empty for every path and extension. -/
theorem C19_no_false_positives (content path : Str)
    (h : ∀ line ∈ splitNewline content,
      ¬ "Get(\"".toList <:+: line ∧ ¬ "FormValue(\"".toList <:+: line ∧
      ¬ "Getenv(\"".toList <:+: line) :
    ScanContent content path ".go".toList = [] ∧
    ∀ path' ext' : Str, ScanContent [] path' ext' = [] := by
  refine ⟨?_, ?_⟩
  · rw [ScanContent_eq_flatMap, List.flatMap_eq_nil_iff]
    rintro ⟨i, line⟩ hil
    have hline : line ∈ splitNewline content := by
      have := List.mem_enumFrom hil
      rw [this.2.2]
      exact List.getElem_mem _
    obtain ⟨hget, hform, henv⟩ := h line hline
    have hq : reGoQuery.FindStringSubmatch line = none :=
      FindStringSubmatch_eq_none _ _ fun w hm hw => by
        rcases reGoQuery_matches w hm with h1 | h1
        · exact hget (h1.trans hw)
        · exact hform (h1.trans hw)
    have he : reGoEnv.FindStringSubmatch line = none :=
      FindStringSubmatch_eq_none _ _ fun w hm hw => henv ((reGoEnv_matches w hm).trans hw)
    have hh : reGoHeader.FindStringSubmatch line = none :=
      FindStringSubmatch_eq_none _ _ fun w hm hw => hget ((reGoHeader_matches w hm).trans hw)
    simp only [rules, List.filterMap_cons, List.filterMap_nil, scanRule, hq, he, hh]
    simp [hasExt]
  · intro path' ext'
    rw [ScanContent_eq_flatMap, List.flatMap_eq_nil_iff]
    rintro ⟨i, line⟩ hil
    have hline : line = [] := by
      have : (i, line) ∈ [(0, ([] : Str))] := hil
      simp at this
      exact this.2
    rw [List.filterMap_eq_nil_iff]
    intro r hr
    simp only [scanRule, hline, rules_empty_line r hr]
    split <;> rfl

theorem C19_no_false_positives_witness :
    ScanContent "fmt.Println(\"hello world\")\nx := 42\n".toList "main.go".toList ".go".toList
      = [] ∧
    ∀ path' ext' : Str, ScanContent [] path' ext' = [] :=
  C19_no_false_positives "fmt.Println(\"hello world\")\nx := 42\n".toList "main.go".toList
    (by decide)

theorem rules_hasExt_ts (r : rule) (hr : r ∈ rules) :
    hasExt r.exts ".ts".toList = hasExt r.exts ".js".toList := by
  simp only [rules, List.mem_cons, List.mem_singleton, List.not_mem_nil, or_false] at hr
  rcases hr with rfl | rfl | rfl | rfl | rfl | rfl | rfl <;> rfl

/-- C20: TypeScript shares the JavaScript patterns: the scan with extension `.ts` equals the
scan with extension `.js` for every content and path; `const q = req.query.search` gives one
`http_query` finding of source `Express` with variable `search` under `.ts`. -/
theorem C20_ts_equals_js (content path : Str) :
    ScanContent content path ".ts".toList = ScanContent content path ".js".toList ∧
    ScanContent "const q = req.query.search\n".toList "api.ts".toList ".ts".toList
      = [{ File := "api.ts".toList, Line := 1, Type_ := "http_query".toList,
           Source := "Express".toList, Variable := "search".toList,
           Validation := genValidation "http_query".toList,
           FuzzInputs := genFuzz "http_query".toList }] := by
  refine ⟨?_, by decide⟩
  rw [ScanContent_eq_flatMap, ScanContent_eq_flatMap]
  have hline : ∀ il : Nat × Str,
      rules.filterMap (scanRule path ".ts".toList il.1 il.2)
        = rules.filterMap (scanRule path ".js".toList il.1 il.2) := by
    intro il
    apply List.filterMap_congr
    intro r hr
    simp only [scanRule, rules_hasExt_ts r hr]
  simp only [hline]

/-! ## scanner.go: the Express pattern -/

theorem reJsQuery_run_miss (c : Char) (cs : Str) (h : c ≠ 'r') : reJsQuery.run (c :: cs) = [] := by
  simp [reJsQuery, Regex.run, Ne.symm h]

theorem reJsQuery_run_hit (k w : Str) (hk : k ∈ ["query".toList, "params".toList, "body".toList])
    (hw : w ≠ []) (hword : ∀ c ∈ w, wordChar c = true) :
    ∃ tl, reJsQuery.run ("req.".toList ++ k ++ ".".toList ++ w)
      = ("req.".toList ++ k ++ ".".toList ++ w, [(1, k), (2, w)], []) :: tl := by
  obtain ⟨tl, htl⟩ := many1_head_end wordChar w hw hword
  simp only [List.mem_cons, List.mem_singleton, List.not_mem_nil, or_false] at hk
  rcases hk with rfl | rfl | rfl <;> simp [reJsQuery, Regex.run, htl]

theorem reJsQuery_find (k w : Str) (hk : k ∈ ["query".toList, "params".toList, "body".toList])
    (hw : w ≠ []) (hword : ∀ c ∈ w, wordChar c = true) :
    reJsQuery.FindStringSubmatch ("const id = req.".toList ++ k ++ ".".toList ++ w)
      = some ["req.".toList ++ k ++ ".".toList ++ w, k, w] := by
  obtain ⟨tl, htl⟩ := reJsQuery_run_hit k w hk hw hword
  have h := Regex.find_hit _ _ _ _ htl
  have hline : "const id = req.".toList ++ k ++ ".".toList ++ w
      = "const id = ".toList ++ ("req.".toList ++ k ++ ".".toList ++ w) := by
    simp
  rw [Regex.FindStringSubmatch, hline]
  have hfind : reJsQuery.find ("const id = ".toList ++ ("req.".toList ++ k ++ ".".toList ++ w))
      = reJsQuery.find ("req.".toList ++ k ++ ".".toList ++ w) := by
    simp only [String.toList, List.cons_append, List.nil_append]
    iterate 11 rw [Regex.find_skip _ _ _ (reJsQuery_run_miss _ _ (by decide))]
  rw [hfind, h]
  rfl

theorem reJsEnv_matches (t : Str) (h : reJsEnv.Matches t) :
    ∃ x, t = "process".toList ++ '.' :: ("env".toList ++ '.' :: x) := by
  simp only [reJsEnv, Regex.Matches] at h
  obtain ⟨u, x, rfl, rfl, _⟩ := h
  exact ⟨x, by simp⟩

theorem reJsEnv_find (k w : Str) (hk : k ∈ ["query".toList, "params".toList, "body".toList])
    (hword : ∀ c ∈ w, wordChar c = true) :
    reJsEnv.FindStringSubmatch ("const id = req.".toList ++ k ++ ".".toList ++ w) = none := by
  have hdotw : '.' ∉ w := fun h => absurd (hword _ h) (by decide)
  have hdotk : '.' ∉ k := by
    simp only [List.mem_cons, List.mem_singleton, List.not_mem_nil, or_false] at hk
    rcases hk with rfl | rfl | rfl <;> decide
  have hline : "const id = req.".toList ++ k ++ ".".toList ++ w
      = "const id = req".toList ++ '.' :: (k ++ '.' :: w) := by simp
  rw [Regex.FindStringSubmatch, hline, Regex.find_eq_none_of_forall]
  · rfl
  · intro pre t post h hm
    obtain ⟨x, rfl⟩ := reJsEnv_matches t hm
    have hcount := congrArg (List.count '.') h
    simp [List.count_append, List.count_cons, List.count_eq_zero_of_not_mem, hdotw, hdotk]
      at hcount
    have hpre : '.' ∉ pre := fun e => by
      have := List.count_pos_iff.2 e
      omega
    have hpl : '.' ∉ pre ++ "process".toList := by simp [hpre]
    have h' : "const id = req".toList ++ '.' :: (k ++ '.' :: w)
        = (pre ++ "process".toList) ++ '.' :: ("env".toList ++ '.' :: x ++ post) := by
      rw [h]; simp
    have hsuf : "process".toList <:+ "const id = req".toList :=
      ⟨pre, (eq_of_append_cons_eq _ _ _ _ (by decide) hpl h').symm⟩
    exact absurd hsuf (by decide)

/-- C21: for every non-empty word `w` of ASCII letters, digits and underscores and every
container `k` among `query`, `params`, `body`, the scan of the single line
`const id = req.k.w` as a `.js` file is exactly one finding, of type `http_query` and source
`Express`, whose variable is `w` (the second capture group), not `k`. -/
theorem C21_express_property_name (k w path : Str)
    (hk : k ∈ ["query".toList, "params".toList, "body".toList])
    (hw : w ≠ []) (hword : ∀ c ∈ w, wordChar c = true) :
    ScanContent ("const id = req.".toList ++ k ++ ".".toList ++ w) path ".js".toList
      = [{ File := path, Line := 1, Type_ := "http_query".toList,
           Source := "Express".toList, Variable := w,
           Validation := genValidation "http_query".toList,
           FuzzInputs := genFuzz "http_query".toList }] := by
  have hnw : '\n' ∉ w := fun h => absurd (hword _ h) (by decide)
  have hnk : '\n' ∉ k := by
    simp only [List.mem_cons, List.mem_singleton, List.not_mem_nil, or_false] at hk
    rcases hk with rfl | rfl | rfl <;> decide
  have hsplit : splitNewline ("const id = req.".toList ++ k ++ ".".toList ++ w)
      = ["const id = req.".toList ++ k ++ ".".toList ++ w] :=
    splitNewline_of_not_mem _ (by simp [hnw, hnk])
  simp only [ScanContent_eq_flatMap, hsplit, List.enum_singleton, List.flatMap_singleton, rules,
    List.filterMap_cons, List.filterMap_nil, scanRule, reJsQuery_find k w hk hw hword,
    reJsEnv_find k w hk hword]
  simp [hasExt]

theorem C21_express_property_name_witness :
    ScanContent "const id = req.params.userId".toList "server.js".toList ".js".toList
      = [{ File := "server.js".toList, Line := 1, Type_ := "http_query".toList,
           Source := "Express".toList, Variable := "userId".toList,
           Validation := genValidation "http_query".toList,
           FuzzInputs := genFuzz "http_query".toList }] :=
  C21_express_property_name "params".toList "userId".toList "server.js".toList
    (by decide) (by decide) (by decide)

/-! ## fuzzgen.go: off-by-one seeds, dispatch, and the characters of the function name -/

namespace FuzzGen

/-- Away from the two ends of the `int64` range the off-by-one seeds of the `int` entry
point lie outside `[Min, Max]`. -/
theorem int_offByOne_outside (lo hi : Int) (h1 : -(2 ^ 63) < lo) (h2 : lo < 2 ^ 63)
    (h3 : -(2 ^ 63) ≤ hi) (h4 : hi < 2 ^ 63 - 1) :
    wrap64 (lo - 1) < lo ∧ hi < wrap64 (hi + 1) := by
  rw [wrap64_of_range (lo - 1) (by omega) (by omega),
    wrap64_of_range (hi + 1) (by omega) (by omega)]
  omega

set_option maxRecDepth 100000 in
/-- C22, the code at the failing input: for `Min` the least and `Max` the greatest `int64`
the third seed `Min-1` wraps to the greatest `int64` and the fourth seed `Max+1` to the
least one; neither lies outside the declared range. -/
theorem C22_offByOne_wraps_at_extremes :
    writeFuzzFunc GoLib.ascii
        ⟨"n".toList, "int".toList, [], -9223372036854775808, 9223372036854775807, 0, []⟩
      = ("func FuzzN(f *testing.F) \x7b\n".toList
          ++ "\tf.Add(int64(-9223372036854775808))\n".toList
          ++ "\tf.Add(int64(9223372036854775807))\n".toList
          ++ "\tf.Add(int64(9223372036854775807))\n".toList
          ++ "\tf.Add(int64(-9223372036854775808))\n".toList
          ++ "\tf.Add(int64(0))\n".toList
          ++ "\tf.Fuzz(func(t *testing.T, v int64) \x7b\n\t\t_ = v\n\t\x7d)\n\x7d\n".toList) ∧
    wrap64 (-9223372036854775808 - 1) = 9223372036854775807 ∧
    ¬ (wrap64 (-9223372036854775808 - 1) < -9223372036854775808) ∧
    wrap64 (9223372036854775807 + 1) = -9223372036854775808 ∧
    ¬ (9223372036854775807 < wrap64 (9223372036854775807 + 1)) := by
  decide

theorem writeFuzzFunc_float (G : GoLib) (e : BoundaryEntry) (ht : e.Type_ = "float64".toList) :
    writeFuzzFunc G e = writeFloatFuzz G (fuzzFuncName G e.Name) e := by
  simp [writeFuzzFunc, ht]

theorem writeFuzzFunc_default (G : GoLib) (e : BoundaryEntry) (h1 : e.Type_ ≠ "int".toList)
    (h2 : e.Type_ ≠ "uint".toList) (h3 : e.Type_ ≠ "float64".toList) :
    writeFuzzFunc G e = writeStringFuzz G (fuzzFuncName G e.Name) e := by
  rw [writeFuzzFunc]
  simp only [if_neg h1, if_neg h2, if_neg h3]

/-- C23: `writeFuzzFunc` dispatches on the exact `Type` text: `int`, `uint` and `float64` get
the `int64`, `uint64` and `float64` entry points, every other text (such as `string`,
`float`, `enum`, the empty text, `Int`, `INT`) the string entry point; whatever the `Type`,
the result is one block: the header `func <fuzzFuncName(Name)>(f *testing.F) {`, the seed
lines, the fuzz target on the seed type, and the closing line `}`. -/
theorem C23_dispatch_on_type (G : GoLib) (e : BoundaryEntry) :
    (e.Type_ = "int".toList →
      writeFuzzFunc G e = writeIntFuzz G (fuzzFuncName G e.Name) e ∧
      seedType e = "int64".toList) ∧
    (e.Type_ = "uint".toList →
      writeFuzzFunc G e = writeUintFuzz G (fuzzFuncName G e.Name) e ∧
      seedType e = "uint64".toList) ∧
    (e.Type_ = "float64".toList →
      writeFuzzFunc G e = writeFloatFuzz G (fuzzFuncName G e.Name) e ∧
      seedType e = "float64".toList) ∧
    (e.Type_ ≠ "int".toList → e.Type_ ≠ "uint".toList → e.Type_ ≠ "float64".toList →
      writeFuzzFunc G e = writeStringFuzz G (fuzzFuncName G e.Name) e ∧
      seedType e = "string".toList) ∧
    (∀ t ∈ ["string".toList, "float".toList, "enum".toList, [], "Int".toList, "INT".toList,
        "Uint".toList, "Float64".toList, "int64".toList, " int".toList],
      t ≠ "int".toList ∧ t ≠ "uint".toList ∧ t ≠ "float64".toList) ∧
    writeFuzzFunc G e
      = "func ".toList ++ fuzzFuncName G e.Name ++ "(f *testing.F) \x7b\n".toList
        ++ ((seedExprs G e).flatMap fun seed => "\tf.Add(".toList ++ seed ++ ")\n".toList)
        ++ ("\tf.Fuzz(func(t *testing.T, v ".toList ++ seedType e
            ++ ") \x7b\n\t\t_ = v\n\t\x7d)\n\x7d\n".toList) ∧
    ("func ".toList ++ fuzzFuncName G e.Name ++ "(f *testing.F) \x7b\n".toList)
      <+: writeFuzzFunc G e ∧
    "\n\x7d\n".toList <:+ writeFuzzFunc G e := by
  refine ⟨?_, ?_, ?_, ?_, by decide, writeFuzzFunc_frame G e, ?_, ?_⟩
  · intro h
    exact ⟨writeFuzzFunc_int G e h, by simp [seedType, h]⟩
  · intro h
    exact ⟨writeFuzzFunc_uint G e h, by simp [seedType, h]⟩
  · intro h
    exact ⟨writeFuzzFunc_float G e h, by simp [seedType, h]⟩
  · intro h1 h2 h3
    refine ⟨writeFuzzFunc_default G e h1 h2 h3, ?_⟩
    rw [seedType]
    simp only [if_neg h1, if_neg h2, if_neg h3]
  · rw [writeFuzzFunc_frame]
    exact ⟨_, (List.append_assoc _ _ _).symm⟩
  · rw [writeFuzzFunc_frame]
    refine ⟨"func ".toList ++ fuzzFuncName G e.Name ++ "(f *testing.F) \x7b\n".toList
        ++ ((seedExprs G e).flatMap fun seed => "\tf.Add(".toList ++ seed ++ ")\n".toList)
        ++ ("\tf.Fuzz(func(t *testing.T, v ".toList ++ seedType e
            ++ ") \x7b\n\t\t_ = v\n\t\x7d)".toList), ?_⟩
    simp

theorem fuzzFuncName_eq_runs (G : GoLib) (name : Str) :
    fuzzFuncName G name = "Fuzz".toList ++ ((alnumRuns G name).map (capitalize G)).flatten :=
  (foldl_fuzzStep_runs G name _).1

theorem foldl_fuzzStep_separators (G : GoLib) (name : Str) (acc : Str) (b : Bool)
    (h : ∀ c ∈ name, isSeparator G c = true) :
    (name.foldl (fuzzStep G) (acc, b)).1 = acc := by
  induction name generalizing b with
  | nil => rfl
  | cons x name ih =>
    have hx : (!G.isLetter x && !G.isDigit x) = true := h x (by simp)
    have hstep : fuzzStep G (acc, b) x = (acc, true) := by simp [fuzzStep, hx]
    rw [List.foldl_cons, hstep]
    exact ih true (fun c hc => h c (by simp [hc]))

theorem foldl_fuzzStep_congr (G : GoLib) (n1 n2 : Str) (st : Str × Bool)
    (h : List.Forall₂
      (fun a b => a = b ∨ (isSeparator G a = true ∧ isSeparator G b = true)) n1 n2) :
    n1.foldl (fuzzStep G) st = n2.foldl (fuzzStep G) st := by
  induction h generalizing st with
  | nil => rfl
  | @cons a b l1 l2 hab _ ih =>
    have hstep : fuzzStep G st a = fuzzStep G st b := by
      rcases hab with rfl | ⟨ha, hb⟩
      · rfl
      · have ha' : (!G.isLetter a && !G.isDigit a) = true := ha
        have hb' : (!G.isLetter b && !G.isDigit b) = true := hb
        simp [fuzzStep, ha', hb']
    rw [List.foldl_cons, List.foldl_cons, hstep]
    exact ih _

theorem not_alnum_of_ascii (G : GoLib) (c : Char) (hc : c.toNat < 128)
    (h : (c.isAlpha || c.isDigit) = false) : (G.isLetter c || G.isDigit c) = false := by
  rw [G.isLetter_ascii c hc, G.isDigit_ascii c hc]
  exact h

/-- C24: for every name `fuzzFuncName` is `Fuzz` followed by letters and digits only, so it
holds no separator, space, double quote or newline; a name made only of separators (or
empty) gives exactly `Fuzz`; names with the same letter/digit runs, in particular names that
differ only by separators at the same places (as `a_b` and `a-b`), give the same
identifier. -/
theorem C24_function_name_is_identifier (G : GoLib) (name n1 n2 : Str) :
    "Fuzz".toList <+: fuzzFuncName G name ∧
    (∀ c ∈ (fuzzFuncName G name).drop 4, G.isLetter c = true ∨ G.isDigit c = true) ∧
    (∀ c ∈ (fuzzFuncName G name).drop 4, isSeparator G c = false) ∧
    ' ' ∉ fuzzFuncName G name ∧ '\"' ∉ fuzzFuncName G name ∧ '\n' ∉ fuzzFuncName G name ∧
    ((∀ c ∈ name, isSeparator G c = true) → fuzzFuncName G name = "Fuzz".toList) ∧
    fuzzFuncName G [] = "Fuzz".toList ∧
    (alnumRuns G n1 = alnumRuns G n2 → fuzzFuncName G n1 = fuzzFuncName G n2) ∧
    (List.Forall₂ (fun a b => a = b ∨ (isSeparator G a = true ∧ isSeparator G b = true)) n1 n2 →
      fuzzFuncName G n1 = fuzzFuncName G n2) ∧
    fuzzFuncName G "a_b".toList = fuzzFuncName G "a-b".toList := by
  obtain ⟨r, hr, hchars⟩ := fuzzFuncName_chars G name
  have hdrop : (fuzzFuncName G name).drop 4 = r := by rw [hr]; rfl
  have hnot : ∀ c : Char, c.toNat < 128 → (c.isAlpha || c.isDigit) = false →
      c ∉ "Fuzz".toList → c ∉ fuzzFuncName G name := by
    intro c hc hcl hcf hmem
    rw [hr, List.mem_append] at hmem
    rcases hmem with hmem | hmem
    · exact hcf hmem
    · have h1 := hchars c hmem
      rw [not_alnum_of_ascii G c hc hcl] at h1
      exact absurd h1 (by decide)
  refine ⟨⟨r, hr.symm⟩, ?_, ?_, hnot ' ' (by decide) (by decide) (by decide),
    hnot '\"' (by decide) (by decide) (by decide),
    hnot '\n' (by decide) (by decide) (by decide), ?_, rfl, ?_, ?_, ?_⟩
  · intro c hc
    rw [hdrop] at hc
    have := hchars c hc
    cases h1 : G.isLetter c <;> cases h2 : G.isDigit c <;> simp_all
  · intro c hc
    rw [hdrop] at hc
    have := hchars c hc
    cases h1 : G.isLetter c <;> cases h2 : G.isDigit c <;> simp_all [isSeparator]
  · intro h
    exact foldl_fuzzStep_separators G name _ true h
  · intro h
    rw [fuzzFuncName_eq_runs, fuzzFuncName_eq_runs, h]
  · intro h
    rw [fuzzFuncName, fuzzFuncName, foldl_fuzzStep_congr G n1 n2 _ h]
  · rw [fuzzFuncName_ascii G "a_b".toList (by decide),
      fuzzFuncName_ascii G "a-b".toList (by decide)]
    decide

theorem C24_function_name_is_identifier_witness :
    fuzzFuncName GoLib.ascii "__".toList = "Fuzz".toList ∧
    fuzzFuncName GoLib.ascii "a_b".toList = "FuzzAB".toList ∧
    fuzzFuncName GoLib.ascii "a-b".toList = "FuzzAB".toList ∧
    fuzzFuncName GoLib.ascii "a \"b\"\nc".toList = "FuzzABC".toList :=
  ⟨(C24_function_name_is_identifier GoLib.ascii "__".toList [] []).2.2.2.2.2.2.1 (by decide),
    by decide, by decide, by decide⟩

end FuzzGen

end BoundaryGuard
